import Mathlib

/-!
# unplugged: agent loop, tool registry and command executor

A shallow embedding of `scratch/zero/main.go` and `scratch/one/main.go`.

Conventions of the embedding

* A Go `error` is represented by its message text; a `(string, error)` return is a
  pair of a `String` and an `Option String` (`none` is the nil error).
  `fmt.Errorf("p: %w", err)` is the text `"p: " ++ err`.
* Everything outside the process (the model endpoint, the file system, standard
  input, subprocesses) is an explicit world `W` that is threaded through the calls.
* Calls that cross a component boundary are recorded, in program order, in a list
  of events that the functions return next to their result.  The list is a
  record of what the code did; no function reads it.
* `log.Printf` output is not part of the embedding.
* What the Go library and the platform supply and the repository does not define, the
  Unicode case table above ASCII and the result of an out-of-range float-to-int
  conversion, is a parameter (`GoRuntime`); theorems hold for every such runtime.
-/

namespace Unplugged

/-! ## Data model -/

/-- Go `any` as it arrives from JSON decoding: `nil`, `bool`, `float64`, `string`,
`[]any`, `map[string]any`. -/
inductive JVal where
  | null
  | bool (b : Bool)
  | num (x : ℚ)
  | str (s : String)
  | arr (xs : List JVal)
  | obj (kv : List (String × JVal))

/-- `map[string]any`: the arguments of a tool call; `args[k]` is `List.lookup k args`. -/
abbrev Args := List (String × JVal)

/-- `type FunctionCall struct`. -/
structure FunctionCall where
  name : String
  arguments : Args

/-- `type ToolCall struct`. -/
structure ToolCall where
  function : FunctionCall

/-- `type Message struct`. -/
structure Message where
  role : String
  content : String
  toolCalls : List ToolCall := []

/-- `type ToolFunction struct`. -/
structure ToolFunction where
  name : String
  description : String
  parameters : Args

/-- `type Tool struct`. -/
structure Tool where
  type : String
  function : ToolFunction

/-- `type ChatRequest struct` (`debugRenderOnly` exists in `scratch/one` only; in
`scratch/zero` it is constantly `false`). -/
structure ChatRequest where
  model : String
  messages : List Message
  tools : List Tool
  stream : Bool
  debugRenderOnly : Bool

/-- `type ChatResponse struct`. -/
structure ChatResponse where
  message : Message
  done : Bool

/-- What a tool handler returns besides the world: `(string, error)`. -/
structure Outcome where
  result : String
  err : Option String

/-- `type ToolHandler func(args map[string]any) (string, error)`, with the world it
acts on made explicit. -/
abbrev ToolHandler (W : Type) := Args → W → Outcome × W

/-- `type ToolRegistry struct`.  The Go map `handlers` is a list of bindings with
pairwise different keys; `Register` keeps it so. -/
structure ToolRegistry (W : Type) where
  definitions : List Tool
  handlers : List (String × ToolHandler W)

/-- The transport `(*LlmClient).Chat`: an opaque remote call that answers with a
response or fails with an error. -/
abbrev Transport (W : Type) := ChatRequest → W → Except String ChatResponse × W

/-- Calls across component boundaries, in program order. -/
inductive Event where
  | chat (req : ChatRequest) (resp : Except String ChatResponse)
  | execute (name : String) (args : Args) (out : Outcome)

/-! ## Tool registry -/

/-- `func NewToolRegistry() *ToolRegistry`. -/
def NewToolRegistry (W : Type) : ToolRegistry W :=
  { definitions := [], handlers := [] }

/-- `func (r *ToolRegistry) Register(name, description, parameters, handler)`:
appends the definition and assigns `handlers[name]`. -/
def ToolRegistry.Register {W : Type} (r : ToolRegistry W) (name description : String)
    (parameters : Args) (handler : ToolHandler W) : ToolRegistry W :=
  let tool : Tool :=
    { type := "function",
      function := { name := name, description := description, parameters := parameters } }
  { definitions := r.definitions ++ [tool],
    handlers := r.handlers.filter (fun kv => kv.1 != name) ++ [(name, handler)] }

/-- `func (r *ToolRegistry) GetTools() []Tool`. -/
def ToolRegistry.GetTools {W : Type} (r : ToolRegistry W) : List Tool :=
  r.definitions

/-- What `Execute` returns, the world after it, and the handler invocations it made
(each with the name it was looked up under and the arguments passed). -/
structure ExecRet (W : Type) where
  out : Outcome
  world : W
  invoked : List (String × Args)

/-- `func (r *ToolRegistry) Execute(name string, args map[string]any) (string, error)`. -/
def ToolRegistry.Execute {W : Type} (r : ToolRegistry W) (name : String) (args : Args)
    (w : W) : ExecRet W :=
  match r.handlers.lookup name with
  | none => { out := { result := "", err := some ("unknown tool: " ++ name) },
              world := w, invoked := [] }
  | some handler =>
    let p := handler args w
    { out := p.1, world := p.2, invoked := [(name, args)] }

/-! ## Agent loop -/

/-- The content of the tool message for an outcome: the result text, or on error
`fmt.Sprintf("{\"error\": \"%s\"}", err.Error())`. -/
def toolContent (o : Outcome) : String :=
  match o.err with
  | some e => "\x7b\"error\": \"" ++ e ++ "\"\x7d"
  | none => o.result

/-- State of the loop between statements: the conversation and the world. -/
structure Conv (W : Type) where
  messages : List Message
  world : W

/-- The inner `for _, tc := range resp.Message.ToolCalls` loop: executes the calls
from left to right, appending one tool message per call; returns the final state and
the `Execute` events in the order they happened. -/
def execToolCalls {W : Type} (registry : ToolRegistry W) :
    List ToolCall → Conv W → Conv W × List Event
  | [], s => (s, [])
  | tc :: rest, s =>
    let r := registry.Execute tc.function.name tc.function.arguments s.world
    let s1 : Conv W :=
      { messages := s.messages ++ [{ role := "tool", content := toolContent r.out }],
        world := r.world }
    let p := execToolCalls registry rest s1
    (p.1, Event.execute tc.function.name tc.function.arguments r.out :: p.2)

/-- What `runAgentLoop` returns (`err = none` is the nil error), together with the
final conversation, the final world and the events of the run. -/
structure LoopRet (W : Type) where
  err : Option String
  messages : List Message
  world : W
  trace : List Event

/-- Result of one pass through the body of the outer `for` loop: the function
returned, or the loop goes on with a new state. -/
inductive Step (W : Type) where
  | ret (r : LoopRet W)
  | next (s : Conv W) (events : List Event)

/-- The request built at the top of the loop body: `req := ChatRequest{...}`. -/
def chatRequest {W : Type} (model : String) (registry : ToolRegistry W)
    (debugRenderOnly : Bool) (messages : List Message) : ChatRequest :=
  { model := model, messages := messages, tools := registry.GetTools,
    stream := false, debugRenderOnly := debugRenderOnly }

/-- The body of `for i := 0; i < maxIterations; i++ { ... }`. -/
def iteration {W : Type} (client : Transport W) (model : String)
    (registry : ToolRegistry W) (debugRenderOnly : Bool) (s : Conv W) : Step W :=
  let req := chatRequest model registry debugRenderOnly s.messages
  match client req s.world with
  | (Except.error e, w1) =>
    Step.ret { err := some ("chat error: " ++ e), messages := s.messages, world := w1,
               trace := [Event.chat req (Except.error e)] }
  | (Except.ok resp, w1) =>
    if resp.message.toolCalls.length > 0 then
      let p := execToolCalls registry resp.message.toolCalls
        { messages := s.messages ++ [resp.message], world := w1 }
      Step.next p.1 (Event.chat req (Except.ok resp) :: p.2)
    else
      Step.ret { err := none, messages := s.messages, world := w1,
                 trace := [Event.chat req (Except.ok resp)] }

/-- The outer loop with `n = maxIterations - i` passes left; falling out of the
loop returns `fmt.Errorf("max iterations reached")`. -/
def runLoop {W : Type} (client : Transport W) (model : String)
    (registry : ToolRegistry W) (debugRenderOnly : Bool) : Nat → Conv W → LoopRet W
  | 0, s => { err := some "max iterations reached", messages := s.messages,
              world := s.world, trace := [] }
  | n + 1, s =>
    match iteration client model registry debugRenderOnly s with
    | Step.ret r => r
    | Step.next s1 events =>
      let r := runLoop client model registry debugRenderOnly n s1
      { r with trace := events ++ r.trace }

/-- `maxIterations := 10`. -/
def maxIterations : Nat := 10

/-- The conversation `runAgentLoop` starts from. -/
def initialMessages (userMessage : String) : List Message :=
  [ { role := "system",
      content := "You are a helpful assistant with access to tools. Use them when needed." },
    { role := "user", content := userMessage } ]

/-- `func runAgentLoop(client, model, registry, userMessage) error`; `debugRenderOnly`
is the flag `*debugRenderOnly` of `scratch/one` (`false` for `scratch/zero`). -/
def runAgentLoop {W : Type} (client : Transport W) (model : String)
    (registry : ToolRegistry W) (debugRenderOnly : Bool) (userMessage : String)
    (w : W) : LoopRet W :=
  runLoop client model registry debugRenderOnly maxIterations
    { messages := initialMessages userMessage, world := w }

/-! ## Strings and JSON encoding used by the command executor -/

/-- `unicode.IsSpace`: the white space that `strings.TrimSpace` removes. -/
def isSpace (c : Char) : Bool :=
  c = '\t' || c = '\n' || c.toNat = 0x0B || c.toNat = 0x0C || c = '\r' || c = ' ' ||
  c.toNat = 0x85 || c.toNat = 0xA0 || c.toNat = 0x1680 ||
  (0x2000 ≤ c.toNat && c.toNat ≤ 0x200A) ||
  c.toNat = 0x2028 || c.toNat = 0x2029 || c.toNat = 0x202F || c.toNat = 0x205F ||
  c.toNat = 0x3000

/-- `strings.TrimSpace`. -/
def trimSpace (s : String) : String :=
  String.mk ((s.data.dropWhile isSpace).reverse.dropWhile isSpace).reverse

/-- `math.MinInt64`. -/
def minInt64 : Int := -9223372036854775808

/-- `math.MaxInt64`. -/
def maxInt64 : Int := 9223372036854775807

/-- What the program takes from the Go library and from the platform and the
repository does not contain.

* `lowerCase` is the Unicode case table behind `unicode.ToLower` for the code points
  above ASCII (there it maps, among others, U+212A to `k` and U+0130 to `i`);
  `lowerCase_isSpace` is the fact that lower-casing neither makes nor unmakes white
  space, which has no case.
* `intOfOutOfRange` is the value of a conversion `int(x)` of a float whose integer part
  does not fit 64 bits, which the language leaves to the implementation;
  `intOfOutOfRange_range` says that it is a 64-bit integer all the same. -/
structure GoRuntime where
  lowerCase : Char → Char
  lowerCase_isSpace : ∀ c : Char, isSpace (lowerCase c) = isSpace c
  intOfOutOfRange : ℚ → Int
  intOfOutOfRange_range : ∀ x : ℚ, minInt64 ≤ intOfOutOfRange x ∧ intOfOutOfRange x ≤ maxInt64

/-- `unicode.ToLower`: within ASCII the letters `A` to `Z` become `a` to `z` and
nothing else changes; above ASCII the case table decides. -/
def toLowerRune (T : GoRuntime) (c : Char) : Char :=
  if c.toNat ≤ 0x7F then Char.toLower c else T.lowerCase c

/-- `strings.ToLower`: `unicode.ToLower` on every character. -/
def toLower (T : GoRuntime) (s : String) : String :=
  String.mk (s.data.map (toLowerRune T))

/-- `strings.HasPrefix`. -/
def hasPrefix (s p : String) : Bool :=
  p.data.isPrefixOf s.data

/-- Whether `sub` occurs in `l` at some position. -/
def containsChars (sub : List Char) : List Char → Bool
  | [] => sub.isPrefixOf []
  | c :: rest => sub.isPrefixOf (c :: rest) || containsChars sub rest

/-- `strings.Contains`. -/
def contains (s sub : String) : Bool :=
  containsChars sub.data s.data

/-- A value stored in a result payload `map[string]any` by the command executor: a
string, an integer or a boolean. -/
inductive PVal where
  | str (s : String)
  | int (n : Int)
  | bool (b : Bool)
  deriving DecidableEq

/-- A result payload: the entries of a `map[string]any` literal (distinct keys). -/
abbrev Payload := List (String × PVal)

/-- Byte-wise order of keys, as `encoding/json` sorts them. -/
def keyLt : List Char → List Char → Bool
  | [], [] => false
  | [], _ :: _ => true
  | _ :: _, [] => false
  | x :: xs, y :: ys => x.toNat < y.toNat || (x.toNat == y.toNat && keyLt xs ys)

/-- Insertion of an entry into a list of entries sorted by key. -/
def insertEntry (e : String × PVal) : Payload → Payload
  | [] => [e]
  | f :: rest => if keyLt e.1.data f.1.data then e :: f :: rest else f :: insertEntry e rest

/-- The entries sorted by key. -/
def sortEntries : Payload → Payload
  | [] => []
  | e :: rest => insertEntry e (sortEntries rest)

/-- Hexadecimal digit, lower case. -/
def hexDigit (n : Nat) : Char :=
  if n < 10 then Char.ofNat (48 + n) else Char.ofNat (87 + n)

/-- How `encoding/json` writes one character inside a string (HTML escaping on). -/
def escapeChar (c : Char) : List Char :=
  if c = '"' then ['\\', '"']
  else if c = '\\' then ['\\', '\\']
  else if c = '\n' then ['\\', 'n']
  else if c = '\r' then ['\\', 'r']
  else if c = '\t' then ['\\', 't']
  else if c.toNat = 0x08 then ['\\', 'b']
  else if c.toNat = 0x0C then ['\\', 'f']
  else if c.toNat < 0x20 || c = '<' || c = '>' || c = '&' then
    ['\\', 'u', '0', '0', hexDigit (c.toNat / 16), hexDigit (c.toNat % 16)]
  else if c.toNat = 0x2028 then ['\\', 'u', '2', '0', '2', '8']
  else if c.toNat = 0x2029 then ['\\', 'u', '2', '0', '2', '9']
  else [c]

/-- A JSON string literal. -/
def jsonString (s : String) : String :=
  String.mk (['"'] ++ (s.data.map escapeChar).flatten ++ ['"'])

/-- A JSON value. -/
def jsonValue : PVal → String
  | PVal.str s => jsonString s
  | PVal.int n => toString n
  | PVal.bool true => "true"
  | PVal.bool false => "false"

/-- `json.Marshal` on a payload: a compact object with the keys in sorted order.  It
does not fail on such a map. -/
def jsonMarshal (m : Payload) : String :=
  "\x7b" ++ ",".intercalate ((sortEntries m).map fun e => jsonString e.1 ++ ":" ++ jsonValue e.2)
    ++ "\x7d"

/-! ## Command executor: the `run_command` handler of `scratch/one` -/

/-- The two flags `*requireConfirm` and `*autoApproveReads`. -/
structure Policy where
  requireConfirm : Bool
  autoApproveReads : Bool

/-- `func isReadOnlyCommand(command string) bool`: the list `safeCommands`. -/
def safeCommands : List String :=
  [ "ls", "cat", "head", "tail", "grep", "find", "pwd",
    "echo", "printf", "wc", "sort", "uniq", "diff",
    "which", "whereis", "type", "file", "stat",
    "ps", "top", "df", "du", "free", "uname",
    "date", "cal", "env", "printenv",
    "git log", "git status", "git diff", "git show",
    "docker ps", "docker images", "docker inspect",
    "kubectl get", "kubectl describe" ]

/-- `func isReadOnlyCommand(command string) bool`: the list `readOnlyPatterns`. -/
def readOnlyPatterns : List String :=
  [ "--help", "--version", "-h", "-v" ]

/-- `func isReadOnlyCommand(command string) bool`. -/
def isReadOnlyCommand (T : GoRuntime) (command : String) : Bool :=
  let command := trimSpace (toLower T command)
  if safeCommands.any (fun safe => hasPrefix command (safe ++ " ") || command == safe) then
    true
  else if readOnlyPatterns.any (fun pattern => contains command pattern) then
    true
  else
    false

/-- The error returned by `cmd.Run()`: nil, an `*exec.ExitError` with its
`ExitCode()`, or another error with its text. -/
inductive RunErr where
  | nil
  | exitError (code : Int)
  | other (msg : String)

/-- What is known after `cmd.Run()`: its error, whether `ctx.Err()` is
`context.DeadlineExceeded`, the captured streams and `duration.Milliseconds()`. -/
structure RunResult where
  err : RunErr
  deadlineExceeded : Bool
  stdout : String
  stderr : String
  durationMs : Int

/-- The operating system as the handler uses it: `reader.ReadString` on standard
input, and the run of `sh -c command` in a directory under a context whose timeout is
a `time.Duration` (nanoseconds). -/
structure Shell (W : Type) where
  readString : W → (String × Option String) × W
  run : String → String → Int → W → RunResult × W

/-- What the handler does to the outside, in program order: the confirmation prompt,
the read of the answer, the start of the subprocess. -/
inductive CmdEvent where
  | confirm (command workingDir : String)
  | read (response : String) (err : Option String)
  | spawn (command workingDir : String) (timeout : Int)

/-- Return of the handler, the world after it and what it did. -/
structure CmdRet (W : Type) where
  out : Outcome
  world : W
  events : List CmdEvent

/-- `v, ok := args[key].(string)`: `some v` when `ok`. -/
def argString (args : Args) (key : String) : Option String :=
  match args.lookup key with
  | some (JVal.str v) => some v
  | _ => none

/-- `v, ok := args[key].(float64)`: `some v` when `ok`. -/
def argFloat (args : Args) (key : String) : Option ℚ :=
  match args.lookup key with
  | some (JVal.num v) => some v
  | _ => none

/-- `int(ts)` on a 64-bit platform: the number cut towards zero when that fits 64
bits, and a value chosen by the implementation when it does not. -/
def truncToInt (T : GoRuntime) (x : ℚ) : Int :=
  if minInt64 ≤ Int.tdiv x.num x.den ∧ Int.tdiv x.num x.den ≤ maxInt64 then
    Int.tdiv x.num x.den
  else T.intOfOutOfRange x

/-- A product of 64-bit integers as Go computes it: the low 64 bits, read as a signed
number. -/
def int64Wrap (n : Int) : Int :=
  (n + 9223372036854775808) % 18446744073709551616 - 9223372036854775808

/-- `time.Second`, a `time.Duration` in nanoseconds. -/
def second : Int := 1000000000

/-- `time.Duration(timeoutSeconds)*time.Second`, the timeout given to
`context.WithTimeout`. -/
def timeoutDuration (timeoutSeconds : Int) : Int :=
  int64Wrap (timeoutSeconds * second)

/-- `needsConfirm` as computed from the flags and the command. -/
def needsConfirm (T : GoRuntime) (policy : Policy) (command : String) : Bool :=
  if policy.autoApproveReads && isReadOnlyCommand T command then false
  else policy.requireConfirm

/-- The map marshalled when the deadline was exceeded. -/
def timeoutPayload (command : String) (res : RunResult) : Payload :=
  [ ("command", PVal.str command),
    ("stdout", PVal.str res.stdout),
    ("stderr", PVal.str res.stderr),
    ("exit_code", PVal.int (-1)),
    ("error", PVal.str "command timed out"),
    ("duration_ms", PVal.int res.durationMs) ]

/-- The map marshalled at the end of the handler. -/
def resultPayload (command workingDir : String) (res : RunResult) (exitCode : Int) :
    Payload :=
  [ ("command", PVal.str command),
    ("working_dir", PVal.str workingDir),
    ("stdout", PVal.str res.stdout),
    ("stderr", PVal.str res.stderr),
    ("exit_code", PVal.int exitCode),
    ("duration_ms", PVal.int res.durationMs),
    ("success", PVal.bool (exitCode == 0)) ]

/-- The handler from `context.WithTimeout` to its end: run the subprocess and build
the result. -/
def runSubprocess {W : Type} (sh : Shell W) (command workingDir : String)
    (timeoutSeconds : Int) (w : W) : CmdRet W :=
  let p := sh.run command workingDir (timeoutDuration timeoutSeconds) w
  let res := p.1
  let events := [CmdEvent.spawn command workingDir (timeoutDuration timeoutSeconds)]
  match res.err with
  | RunErr.nil =>
    { out := { result := jsonMarshal (resultPayload command workingDir res 0), err := none },
      world := p.2, events := events }
  | RunErr.exitError code =>
    { out := { result := jsonMarshal (resultPayload command workingDir res code),
               err := none },
      world := p.2, events := events }
  | RunErr.other msg =>
    if res.deadlineExceeded then
      { out := { result := jsonMarshal (timeoutPayload command res), err := none },
        world := p.2, events := events }
    else
      { out := { result := "", err := some ("failed to execute command: " ++ msg) },
        world := p.2, events := events }

/-- The working directory: `args["working_dir"]` when it is a non-empty string, else
`"."`. -/
def workingDirOf (args : Args) : String :=
  match argString args "working_dir" with
  | some wd => if wd ≠ "" then wd else "."
  | none => "."

/-- The timeout in seconds: `int(args["timeout_seconds"])` when it is a number, else
30. -/
def timeoutSecondsOf (T : GoRuntime) (args : Args) : Int :=
  match argFloat args "timeout_seconds" with
  | some ts => truncToInt T ts
  | none => 30

/-- The block `if needsConfirm { ... }` when `needsConfirm` holds, followed by the
rest of the handler: prompt, read the answer, and go on to the subprocess only on
`y` or `yes`. -/
def confirmThenRun {W : Type} (T : GoRuntime) (sh : Shell W) (command workingDir : String)
    (timeoutSeconds : Int) (w : W) : CmdRet W :=
  match sh.readString w with
  | ((response, some e), w1) =>
    { out := { result := "", err := some ("confirmation failed: " ++ e) },
      world := w1,
      events := [CmdEvent.confirm command workingDir, CmdEvent.read response (some e)] }
  | ((response, none), w1) =>
    let answer := trimSpace (toLower T response)
    if answer ≠ "y" ∧ answer ≠ "yes" then
      { out := { result := "", err := some "command execution denied by user" },
        world := w1,
        events := [CmdEvent.confirm command workingDir, CmdEvent.read response none] }
    else
      let r := runSubprocess sh command workingDir timeoutSeconds w1
      { r with
        events := [CmdEvent.confirm command workingDir, CmdEvent.read response none]
          ++ r.events }

/-- The handler registered as `run_command`. -/
def run_command {W : Type} (T : GoRuntime) (policy : Policy) (sh : Shell W) (args : Args)
    (w : W) : CmdRet W :=
  match argString args "command" with
  | none =>
    { out := { result := "", err := some "command must be a non-empty string" },
      world := w, events := [] }
  | some command =>
    if command = "" then
      { out := { result := "", err := some "command must be a non-empty string" },
        world := w, events := [] }
    else
      let workingDir := workingDirOf args
      let timeoutSeconds := timeoutSecondsOf T args
      if needsConfirm T policy command then
        confirmThenRun T sh command workingDir timeoutSeconds w
      else
        runSubprocess sh command workingDir timeoutSeconds w

/-- The handler as a `ToolHandler`, as it is passed to `Register`. -/
def run_command_handler {W : Type} (T : GoRuntime) (policy : Policy) (sh : Shell W) :
    ToolHandler W :=
  fun args w =>
    ((run_command T policy sh args w).out, (run_command T policy sh args w).world)

/-! ## Specification-side notions for the agent loop -/

/-- World reached from `w` once the calls have been executed from left to right. -/
def worldAfterCalls {W : Type} (registry : ToolRegistry W) : List ToolCall → W → W
  | [], w => w
  | tc :: rest, w =>
    worldAfterCalls registry rest
      (registry.Execute tc.function.name tc.function.arguments w).world

/-- The tool messages for the calls executed from left to right, starting in `w`. -/
def toolMessages {W : Type} (registry : ToolRegistry W) : List ToolCall → W → List Message
  | [], _ => []
  | tc :: rest, w =>
    let r := registry.Execute tc.function.name tc.function.arguments w
    { role := "tool", content := toolContent r.out } :: toolMessages registry rest r.world

/-- The `Execute` events for the calls executed from left to right, starting in `w`. -/
def toolEvents {W : Type} (registry : ToolRegistry W) : List ToolCall → W → List Event
  | [], _ => []
  | tc :: rest, w =>
    let r := registry.Execute tc.function.name tc.function.arguments w
    Event.execute tc.function.name tc.function.arguments r.out :: toolEvents registry rest r.world

/-- Number of transport calls in a list of events. -/
def chatCount : List Event → Nat
  | [] => 0
  | Event.chat _ _ :: rest => chatCount rest + 1
  | Event.execute _ _ _ :: rest => chatCount rest

/-- The event is the execution of the tool call `tc` (with some outcome). -/
def Event.Executes (ev : Event) (tc : ToolCall) : Prop :=
  ∃ o, ev = Event.execute tc.function.name tc.function.arguments o

/-- Shape of the events and of the returned error of a run that starts with `n`
passes left. -/
inductive RunShape : Nat → List Event → Option String → Prop where
  | budget : RunShape 0 [] (some "max iterations reached")
  | fail (n : Nat) (req : ChatRequest) (e : String) :
      RunShape (n + 1) [Event.chat req (Except.error e)] (some ("chat error: " ++ e))
  | final (n : Nat) (req : ChatRequest) (resp : ChatResponse)
      (h : resp.message.toolCalls.length = 0) :
      RunShape (n + 1) [Event.chat req (Except.ok resp)] none
  | turn (n : Nat) (req : ChatRequest) (resp : ChatResponse) (evs tr : List Event)
      (err : Option String) (h : 0 < resp.message.toolCalls.length)
      (hev : List.Forall₂ Event.Executes evs resp.message.toolCalls)
      (hrest : RunShape n tr err) :
      RunShape (n + 1) (Event.chat req (Except.ok resp) :: (evs ++ tr)) err

/-- One `Register` call: its four arguments. -/
structure Registration (W : Type) where
  name : String
  description : String
  parameters : Args
  handler : ToolHandler W

/-- The registry after a sequence of `Register` calls on `r`, first call first. -/
def registerAll {W : Type} (r : ToolRegistry W) (regs : List (Registration W)) :
    ToolRegistry W :=
  regs.foldl (fun acc x => acc.Register x.name x.description x.parameters x.handler) r

/-! ## A small concrete scenario

The world is a counter.  `bump` reports whether it is the first to run and increments
the counter, `fail` returns an error, and no tool is registered as `nope`. -/

/-- A handler with a side effect on the world. -/
def bump : ToolHandler Nat :=
  fun _ w => ({ result := if w = 0 then "first" else "later", err := none }, w + 1)

/-- A handler that returns an error. -/
def failing : ToolHandler Nat :=
  fun _ w => ({ result := "", err := some "boom" }, w)

/-- The two registrations of the scenario. -/
def demoRegistrations : List (Registration Nat) :=
  [ { name := "bump", description := "", parameters := [], handler := bump },
    { name := "fail", description := "", parameters := [], handler := failing } ]

/-- Registry with `bump` and `fail`. -/
def demoRegistry : ToolRegistry Nat :=
  registerAll (NewToolRegistry Nat) demoRegistrations

/-- Four calls in one assistant turn: the second names an unknown tool, the third
fails in its handler. -/
def demoCalls : List ToolCall :=
  [ { function := { name := "bump", arguments := [] } },
    { function := { name := "nope", arguments := [] } },
    { function := { name := "fail", arguments := [] } },
    { function := { name := "bump", arguments := [] } } ]

/-- An assistant response carrying `demoCalls`. -/
def demoResponse : ChatResponse :=
  { message := { role := "assistant", content := "", toolCalls := demoCalls }, done := true }

/-- An assistant response with a final answer. -/
def finalResponse : ChatResponse :=
  { message := { role := "assistant", content := "done" }, done := true }

/-- Transport that asks for `demoCalls` on the first request and answers after it. -/
def demoClient : Transport Nat :=
  fun req w =>
    if req.messages.length = 2 then (Except.ok demoResponse, w)
    else (Except.ok finalResponse, w)

/-- Transport that asks for tool calls on every request. -/
def busyClient : Transport Nat :=
  fun _ w => (Except.ok demoResponse, w)

/-- Transport that fails on every request. -/
def downClient : Transport Nat :=
  fun _ w => (Except.error "connection refused", w)

/-- Transport that answers at once. -/
def readyClient : Transport Nat :=
  fun _ w => (Except.ok finalResponse, w)

/-- A runtime for the scenario.  Of the case table it has the two entries that lead
into ASCII, the Kelvin sign U+212A to `k` and the dotted capital I U+0130 to `i`; the
other letters above ASCII, whose lower case is again above ASCII, are left as they
are.  An out-of-range conversion gives the least 64-bit integer. -/
def goRuntime : GoRuntime :=
  { lowerCase := fun c =>
      if c.toNat = 0x212A then 'k' else if c.toNat = 0x130 then 'i' else c,
    lowerCase_isSpace := by
      intro c
      by_cases h1 : c.toNat = 0x212A
      · have hc : c = Char.ofNat 0x212A := by rw [← h1, Char.ofNat_toNat]
        subst hc
        decide
      · by_cases h2 : c.toNat = 0x130
        · have hc : c = Char.ofNat 0x130 := by rw [← h2, Char.ofNat_toNat]
          subst hc
          decide
        · simp [h1, h2],
    intOfOutOfRange := fun _ => minInt64,
    intOfOutOfRange_range := fun _ =>
      ⟨le_refl _, (by decide : minInt64 ≤ maxInt64)⟩ }

/-- A shell whose standard input ends before a line is complete: the read returns what
was typed, `answer`, together with the error `EOF`. -/
def endedInputShell (answer : String) (res : RunResult) : Shell Nat :=
  { readString := fun w => ((answer, some "EOF"), w + 1),
    run := fun _ _ _ w => (res, w + 10) }

/-- A shell for the scenario: the operator types `answer`, and a subprocess run ends
as `res`; the counter moves by 1 for a read and by 10 for a run. -/
def cannedShell (answer : String) (res : RunResult) : Shell Nat :=
  { readString := fun w => ((answer, none), w + 1),
    run := fun _ _ _ w => (res, w + 10) }

/-- A run that ends by itself with exit code 0. -/
def completedRun : RunResult :=
  { err := RunErr.nil, deadlineExceeded := false, stdout := "main.go\n", stderr := "",
    durationMs := 3 }

/-- A run whose subprocess is killed at the deadline: `cmd.Run()` returns an
`*exec.ExitError` whose `ExitCode()` is -1, and the context reports the deadline. -/
def killedRun : RunResult :=
  { err := RunErr.exitError (-1), deadlineExceeded := true, stdout := "tick\n",
    stderr := "", durationMs := 1000 }

/-- A run that fails with the context error because the deadline had passed before
the subprocess was started. -/
def expiredRun : RunResult :=
  { err := RunErr.other "context deadline exceeded", deadlineExceeded := true,
    stdout := "", stderr := "", durationMs := 0 }

/-! ## Specification-side notions for the command executor -/

/-- Exit code of a run that ended by itself: 0 when `cmd.Run()` reports no error, the
code of the exit-status error otherwise; none for any other error. -/
def completedExitCode : RunErr → Option Int
  | RunErr.nil => some 0
  | RunErr.exitError code => some code
  | RunErr.other _ => none

/-- The handler, called in world `w` on a valid `command`, gets as far as starting the
subprocess, and does so in world `w0`: either no confirmation is needed and `w0` is
`w`, or the operator's answer is read successfully, leaving `w0`, and is `y` or `yes`
once lower-cased and trimmed. -/
def StartsAt {W : Type} (T : GoRuntime) (policy : Policy) (sh : Shell W) (command : String)
    (w w0 : W) : Prop :=
  (needsConfirm T policy command = false ∧ w0 = w) ∨
  (needsConfirm T policy command = true ∧
    ∃ response, sh.readString w = ((response, none), w0) ∧
      (trimSpace (toLower T response) = "y" ∨ trimSpace (toLower T response) = "yes"))

/-- Two registrations under the same name `bump`, the second with another handler. -/
def repeatedRegistrations : List (Registration Nat) :=
  [ { name := "bump", description := "first", parameters := [], handler := failing },
    { name := "bump", description := "second", parameters := [], handler := bump } ]

/-- The names advertised by `GetTools`, in order. -/
def toolNames {W : Type} (r : ToolRegistry W) : List String :=
  r.GetTools.map (fun t => t.function.name)

/-- The tool message that the loop appends for an `Execute` event. -/
def toolMessageOf : Event → Option Message
  | Event.execute _ _ out => some { role := "tool", content := toolContent out }
  | Event.chat _ _ => none

/-- Shape of the events of a run that starts with the conversation `msgs`: every
request carries the conversation as it stands, and a turn with tool calls extends
the conversation by the assistant message and one tool message per `Execute`. -/
inductive ConvShape : List Message → List Event → Prop where
  | done (msgs : List Message) : ConvShape msgs []
  | last (msgs : List Message) (req : ChatRequest) (resp : Except String ChatResponse)
      (hreq : req.messages = msgs) : ConvShape msgs [Event.chat req resp]
  | turn (msgs : List Message) (req : ChatRequest) (resp : ChatResponse)
      (evs tr : List Event) (hreq : req.messages = msgs)
      (hev : List.Forall₂ Event.Executes evs resp.message.toolCalls)
      (hrest : ConvShape (msgs ++ [resp.message] ++ evs.filterMap toolMessageOf) tr) :
      ConvShape msgs (Event.chat req (Except.ok resp) :: (evs ++ tr))

/-- An assistant response with two tool calls in one turn. -/
def twoCallResponse : ChatResponse :=
  { message :=
      { role := "assistant", content := "",
        toolCalls :=
          [ { function := { name := "bump", arguments := [("a", JVal.num 2)] } },
            { function := { name := "bump", arguments := [("city", JVal.str "X")] } } ] },
    done := true }

/-- Transport that asks for the two calls on the first request and answers after it. -/
def twoCallClient : Transport Nat :=
  fun req w =>
    if req.messages.length = 2 then (Except.ok twoCallResponse, w)
    else (Except.ok finalResponse, w)

/-! ## Reading a JSON error payload

The claim on error payloads speaks of a well-formed JSON object with the single field
`error`.  `decodeErrorPayload` reads such an object (RFC 8259: optional white space,
a string key, a string value with the usual escapes) and returns the decoded value of
`error`; it returns none on any other text. -/

/-- Value of a hexadecimal digit. -/
def hexValue (c : Char) : Option Nat :=
  if 48 ≤ c.toNat ∧ c.toNat ≤ 57 then some (c.toNat - 48)
  else if 97 ≤ c.toNat ∧ c.toNat ≤ 102 then some (c.toNat - 87)
  else if 65 ≤ c.toNat ∧ c.toNat ≤ 70 then some (c.toNat - 55)
  else none

/-- The character written as `\uXXXX` (halves of surrogate pairs are not combined). -/
def hex4 (a b c d : Char) : Option Char :=
  match hexValue a, hexValue b, hexValue c, hexValue d with
  | some x, some y, some z, some t => some (Char.ofNat (((x * 16 + y) * 16 + z) * 16 + t))
  | _, _, _, _ => none

/-- The character written as a backslash followed by `e`, for the two-character
escapes of JSON. -/
def unescape (e : Char) : Option Char :=
  if e = '"' then some '"'
  else if e = '\\' then some '\\'
  else if e = '/' then some '/'
  else if e = 'b' then some (Char.ofNat 8)
  else if e = 'f' then some (Char.ofNat 12)
  else if e = 'n' then some '\n'
  else if e = 'r' then some '\r'
  else if e = 't' then some '\t'
  else none

/-- Reads a JSON string after its opening quote: the decoded characters up to the
closing quote, and the text after it. -/
def parseStringBody : List Char → Option (List Char × List Char)
  | [] => none
  | c :: rest =>
    if c = '"' then some ([], rest)
    else if c = '\\' then
      match rest with
      | [] => none
      | e :: rest2 =>
        if e = 'u' then
          match rest2 with
          | h1 :: h2 :: h3 :: h4 :: rest3 =>
            match hex4 h1 h2 h3 h4, parseStringBody rest3 with
            | some ch, some p => some (ch :: p.1, p.2)
            | _, _ => none
          | _ => none
        else
          match unescape e, parseStringBody rest2 with
          | some ch, some p => some (ch :: p.1, p.2)
          | _, _ => none
    else if c.toNat < 0x20 then none
    else
      match parseStringBody rest with
      | some p => some (c :: p.1, p.2)
      | none => none

/-- JSON white space. -/
def isJsonSpace (c : Char) : Bool :=
  c = ' ' || c = '\t' || c = '\n' || c = '\r'

/-- Reads a JSON string, opening quote included, after optional white space. -/
def parseString (l : List Char) : Option (List Char × List Char) :=
  match l.dropWhile isJsonSpace with
  | '"' :: rest => parseStringBody rest
  | _ => none

/-- Reads the character `c` after optional white space. -/
def expectChar (c : Char) (l : List Char) : Option (List Char) :=
  match l.dropWhile isJsonSpace with
  | d :: rest => if d = c then some rest else none
  | [] => none

/-- The value of `error` when the text is a well-formed JSON object whose single field
is `error` with a string value; none otherwise. -/
def decodeErrorPayload (s : String) : Option String :=
  match expectChar '\x7b' s.data with
  | none => none
  | some l1 =>
    match parseString l1 with
    | none => none
    | some (key, l2) =>
      if key ≠ "error".data then none
      else
        match expectChar ':' l2 with
        | none => none
        | some l3 =>
          match parseString l3 with
          | none => none
          | some (value, l4) =>
            match expectChar '\x7d' l4 with
            | none => none
            | some l5 => if l5.dropWhile isJsonSpace = [] then some (String.mk value) else none

/-- An assistant response with one call, to a tool named `a"b`. -/
def quoteResponse : ChatResponse :=
  { message :=
      { role := "assistant", content := "",
        toolCalls := [ { function := { name := "a\"b", arguments := [] } } ] },
    done := true }

/-- Transport that asks for the call of `a"b` on the first request and answers after
it. -/
def quoteClient : Transport Nat :=
  fun req w =>
    if req.messages.length = 2 then (Except.ok quoteResponse, w)
    else (Except.ok finalResponse, w)

/-- The command as the classification sees it in the words of the specification:
trimmed of surrounding white space and lower-cased. -/
def normalizedCommand (T : GoRuntime) (c : String) : String :=
  toLower T (trimSpace c)

/-- The schema that a `Register` call appends: `Tool{Type: "function", Function: ...}`
with the name, description and parameters of the call. -/
def toolOf {W : Type} (x : Registration W) : Tool :=
  { type := "function",
    function := { name := x.name, description := x.description, parameters := x.parameters } }

/-! ## Lemmas on the tool-call loop -/

theorem execToolCalls_eq {W : Type} (registry : ToolRegistry W) (calls : List ToolCall)
    (s : Conv W) :
    execToolCalls registry calls s =
      ({ messages := s.messages ++ toolMessages registry calls s.world,
         world := worldAfterCalls registry calls s.world },
       toolEvents registry calls s.world) := by
  induction calls generalizing s with
  | nil => simp [execToolCalls, toolMessages, worldAfterCalls, toolEvents]
  | cons tc rest ih =>
    simp [execToolCalls, toolMessages, worldAfterCalls, toolEvents, ih]

theorem toolMessages_length {W : Type} (registry : ToolRegistry W)
    (calls : List ToolCall) (w : W) :
    (toolMessages registry calls w).length = calls.length := by
  induction calls generalizing w with
  | nil => rfl
  | cons tc rest ih => simp [toolMessages, ih]

theorem toolEvents_length {W : Type} (registry : ToolRegistry W)
    (calls : List ToolCall) (w : W) :
    (toolEvents registry calls w).length = calls.length := by
  induction calls generalizing w with
  | nil => rfl
  | cons tc rest ih => simp [toolEvents, ih]

theorem toolMessages_getElem? {W : Type} (registry : ToolRegistry W)
    (calls : List ToolCall) (w : W) (i : Nat) (tc : ToolCall) (h : calls[i]? = some tc) :
    (toolMessages registry calls w)[i]? =
      some { role := "tool",
             content := toolContent (registry.Execute tc.function.name tc.function.arguments
               (worldAfterCalls registry (calls.take i) w)).out } := by
  induction calls generalizing w i with
  | nil => simp at h
  | cons c rest ih =>
    cases i with
    | zero =>
      simp at h
      subst h
      simp [toolMessages, worldAfterCalls]
    | succ j =>
      simp at h
      simp [toolMessages, worldAfterCalls, ih _ j h]

theorem toolEvents_getElem? {W : Type} (registry : ToolRegistry W)
    (calls : List ToolCall) (w : W) (i : Nat) (tc : ToolCall) (h : calls[i]? = some tc) :
    (toolEvents registry calls w)[i]? =
      some (Event.execute tc.function.name tc.function.arguments
        (registry.Execute tc.function.name tc.function.arguments
          (worldAfterCalls registry (calls.take i) w)).out) := by
  induction calls generalizing w i with
  | nil => simp at h
  | cons c rest ih =>
    cases i with
    | zero =>
      simp at h
      subst h
      simp [toolEvents, worldAfterCalls]
    | succ j =>
      simp at h
      simp [toolEvents, worldAfterCalls, ih _ j h]

theorem toolEvents_executes {W : Type} (registry : ToolRegistry W)
    (calls : List ToolCall) (w : W) :
    List.Forall₂ Event.Executes (toolEvents registry calls w) calls := by
  induction calls generalizing w with
  | nil => exact List.Forall₂.nil
  | cons tc rest ih => exact List.Forall₂.cons ⟨_, rfl⟩ (ih _)

/-- Unfolding of the loop body when the transport fails. -/
theorem iteration_error {W : Type} (client : Transport W) (model : String)
    (registry : ToolRegistry W) (dbg : Bool) (s : Conv W) (e : String) (w1 : W)
    (h : client (chatRequest model registry dbg s.messages) s.world = (Except.error e, w1)) :
    iteration client model registry dbg s =
      Step.ret { err := some ("chat error: " ++ e), messages := s.messages, world := w1,
                 trace := [Event.chat (chatRequest model registry dbg s.messages)
                   (Except.error e)] } := by
  simp [iteration, h]

/-- Unfolding of the loop body when the response carries no tool call. -/
theorem iteration_final {W : Type} (client : Transport W) (model : String)
    (registry : ToolRegistry W) (dbg : Bool) (s : Conv W) (resp : ChatResponse) (w1 : W)
    (h : client (chatRequest model registry dbg s.messages) s.world = (Except.ok resp, w1))
    (hc : resp.message.toolCalls.length = 0) :
    iteration client model registry dbg s =
      Step.ret { err := none, messages := s.messages, world := w1,
                 trace := [Event.chat (chatRequest model registry dbg s.messages)
                   (Except.ok resp)] } := by
  simp [iteration, h, hc]

/-- Unfolding of the loop body when the response carries tool calls. -/
theorem iteration_calls {W : Type} (client : Transport W) (model : String)
    (registry : ToolRegistry W) (dbg : Bool) (s : Conv W) (resp : ChatResponse) (w1 : W)
    (h : client (chatRequest model registry dbg s.messages) s.world = (Except.ok resp, w1))
    (hc : 0 < resp.message.toolCalls.length) :
    iteration client model registry dbg s =
      Step.next
        { messages := s.messages ++ [resp.message] ++
            toolMessages registry resp.message.toolCalls w1,
          world := worldAfterCalls registry resp.message.toolCalls w1 }
        (Event.chat (chatRequest model registry dbg s.messages) (Except.ok resp) ::
          toolEvents registry resp.message.toolCalls w1) := by
  simp [iteration, h, hc, execToolCalls_eq]

/-! ## Shape of a run -/

theorem runLoop_shape {W : Type} (client : Transport W) (model : String)
    (registry : ToolRegistry W) (dbg : Bool) (n : Nat) (s : Conv W) :
    RunShape n (runLoop client model registry dbg n s).trace
      (runLoop client model registry dbg n s).err := by
  induction n generalizing s with
  | zero => exact RunShape.budget
  | succ n ih =>
    rcases h : client (chatRequest model registry dbg s.messages) s.world with ⟨e | resp, w1⟩
    · rw [runLoop, iteration_error client model registry dbg s e w1 h]
      exact RunShape.fail n _ e
    · by_cases hc : 0 < resp.message.toolCalls.length
      · rw [runLoop, iteration_calls client model registry dbg s resp w1 h hc]
        exact RunShape.turn n _ resp _ _ _ hc (toolEvents_executes registry _ w1) (ih _)
      · have hc0 : resp.message.toolCalls.length = 0 := by omega
        rw [runLoop, iteration_final client model registry dbg s resp w1 h hc0]
        exact RunShape.final n _ resp hc0

theorem chatCount_append (a b : List Event) :
    chatCount (a ++ b) = chatCount a + chatCount b := by
  induction a with
  | nil => simp [chatCount]
  | cons ev rest ih =>
    cases ev with
    | chat req resp => simp [chatCount, ih]; omega
    | execute name args out => simp [chatCount, ih]

theorem chatCount_executes (evs : List Event) (calls : List ToolCall)
    (h : List.Forall₂ Event.Executes evs calls) : chatCount evs = 0 := by
  induction h with
  | nil => rfl
  | cons hx _ ih =>
    obtain ⟨o, rfl⟩ := hx
    simpa [chatCount] using ih

theorem not_chat_mem_executes (evs : List Event) (calls : List ToolCall)
    (h : List.Forall₂ Event.Executes evs calls) (req : ChatRequest)
    (resp : Except String ChatResponse) : Event.chat req resp ∉ evs := by
  induction h with
  | nil => simp
  | cons hx _ ih =>
    obtain ⟨o, rfl⟩ := hx
    simpa using ih

theorem split_after_executes (evs : List Event) (calls : List ToolCall)
    (h : List.Forall₂ Event.Executes evs calls) (pre post tr : List Event)
    (req : ChatRequest) (resp : Except String ChatResponse)
    (heq : pre ++ Event.chat req resp :: post = evs ++ tr) :
    ∃ rest, pre = evs ++ rest ∧ tr = rest ++ Event.chat req resp :: post := by
  induction h generalizing pre with
  | nil => exact ⟨pre, by simp, by simpa using heq.symm⟩
  | cons hx _ ih =>
    obtain ⟨o, rfl⟩ := hx
    cases pre with
    | nil => simp at heq
    | cons p pre1 =>
      simp at heq
      obtain ⟨rest, h1, h2⟩ := ih pre1 heq.2
      exact ⟨rest, by simp [heq.1, h1], h2⟩

theorem RunShape.chatCount_le {n : Nat} {tr : List Event} {err : Option String}
    (h : RunShape n tr err) : chatCount tr ≤ n := by
  induction h with
  | budget => simp [chatCount]
  | fail n req e => simp [chatCount]
  | final n req resp h => simp [chatCount]
  | turn n req resp evs tr err h hev hrest ih =>
    simp [chatCount, chatCount_append, chatCount_executes evs _ hev]
    exact ih

theorem RunShape.of_nil {n : Nat} {err : Option String} (h : RunShape n [] err) :
    n = 0 ∧ err = some "max iterations reached" := by
  cases h
  exact ⟨rfl, rfl⟩

theorem RunShape.head_chat {n : Nat} {ev : Event} {tr : List Event} {err : Option String}
    (h : RunShape n (ev :: tr) err) : ∃ req resp, ev = Event.chat req resp := by
  cases h with
  | fail n req e => exact ⟨_, _, rfl⟩
  | final n req resp h => exact ⟨_, _, rfl⟩
  | turn n req resp evs tr err h hev hrest => exact ⟨_, _, rfl⟩

/-- A run in which every answer of the transport is a response with tool calls uses
its whole budget and ends with the budget error. -/
theorem RunShape.exhausted {n : Nat} {tr : List Event} {err : Option String}
    (h : RunShape n tr err)
    (hall : ∀ req resp, Event.chat req resp ∈ tr →
      ∃ cr, resp = Except.ok cr ∧ 0 < cr.message.toolCalls.length) :
    chatCount tr = n ∧ err = some "max iterations reached" := by
  induction h with
  | budget => exact ⟨rfl, rfl⟩
  | fail n req e =>
    obtain ⟨cr, hcr, _⟩ := hall req (Except.error e) (by simp)
    cases hcr
  | final n req resp h =>
    obtain ⟨cr, hcr, hpos⟩ := hall req (Except.ok resp) (by simp)
    cases hcr
    omega
  | turn n req resp evs tr err h hev hrest ih =>
    have := ih (fun rq rs hm => hall rq rs (by simp [hm]))
    simp [chatCount, chatCount_append, chatCount_executes evs _ hev, this.1, this.2]

/-- What follows a transport call in a run, by the kind of its answer. -/
theorem RunShape.after_chat {n : Nat} {tr : List Event} {err : Option String}
    (h : RunShape n tr err) (pre post : List Event) (req : ChatRequest)
    (resp : Except String ChatResponse) (heq : tr = pre ++ Event.chat req resp :: post) :
    (∀ e, resp = Except.error e → post = [] ∧ err = some ("chat error: " ++ e)) ∧
    (∀ cr, resp = Except.ok cr → cr.message.toolCalls.length = 0 →
      post = [] ∧ err = none) ∧
    (∀ cr, resp = Except.ok cr → 0 < cr.message.toolCalls.length →
      ∃ evs rest, post = evs ++ rest ∧ List.Forall₂ Event.Executes evs cr.message.toolCalls ∧
        ((rest = [] ∧ err = some "max iterations reached") ∨
          ∃ req2 resp2 rest2, rest = Event.chat req2 resp2 :: rest2)) := by
  induction h generalizing pre with
  | budget => simp at heq
  | fail n rq e0 =>
    cases pre with
    | nil =>
      simp at heq
      obtain ⟨⟨rfl, rfl⟩, rfl⟩ := heq
      refine ⟨?_, ?_, ?_⟩
      · intro e he; cases he; exact ⟨rfl, rfl⟩
      · intro cr hcr; cases hcr
      · intro cr hcr; cases hcr
    | cons p pre1 => simp at heq
  | final n rq rs hz =>
    cases pre with
    | nil =>
      simp at heq
      obtain ⟨⟨rfl, rfl⟩, rfl⟩ := heq
      refine ⟨?_, ?_, ?_⟩
      · intro e he; cases he
      · intro cr hcr _; exact ⟨rfl, rfl⟩
      · intro cr hcr hpos; cases hcr; omega
    | cons p pre1 => simp at heq
  | turn n rq rs evs tr err hpos hev hrest ih =>
    cases pre with
    | nil =>
      simp at heq
      obtain ⟨⟨rfl, rfl⟩, rfl⟩ := heq
      refine ⟨?_, ?_, ?_⟩
      · intro e he; cases he
      · intro cr hcr hz; cases hcr; omega
      · intro cr hcr _
        cases hcr
        refine ⟨evs, tr, rfl, hev, ?_⟩
        cases tr with
        | nil => exact Or.inl ⟨rfl, hrest.of_nil.2⟩
        | cons ev tr1 =>
          obtain ⟨r2, s2, rfl⟩ := hrest.head_chat
          exact Or.inr ⟨_, _, _, rfl⟩
    | cons p pre1 =>
      simp at heq
      obtain ⟨rest, _, h2⟩ := split_after_executes evs _ hev pre1 post tr req resp heq.2.symm
      exact ih rest h2

/-- A run returns an error only for an exhausted budget or a failed transport call,
which is then the last event. -/
theorem RunShape.err_cases {n : Nat} {tr : List Event} {err : Option String}
    (h : RunShape n tr err) (e : String) (he : err = some e) :
    (e = "max iterations reached" ∧ chatCount tr = n) ∨
    (∃ pre req te, tr = pre ++ [Event.chat req (Except.error te)] ∧
      e = "chat error: " ++ te) := by
  induction h with
  | budget => cases he; exact Or.inl ⟨rfl, rfl⟩
  | fail n req e0 => cases he; exact Or.inr ⟨[], req, e0, rfl, rfl⟩
  | final n req resp h => cases he
  | turn n req resp evs tr err h hev hrest ih =>
    rcases ih he with ⟨h1, h2⟩ | ⟨pre, rq, te, h1, h2⟩
    · left
      simp [chatCount, chatCount_append, chatCount_executes evs _ hev, h1, h2]
    · right
      exact ⟨Event.chat req (Except.ok resp) :: (evs ++ pre), rq, te, by simp [h1], h2⟩

/-! ## Lemmas on the registry -/

theorem lookup_eq_none_of_keys {β : Type} (l : List (String × β)) (name : String)
    (h : ∀ kv ∈ l, kv.1 ≠ name) : l.lookup name = none := by
  induction l with
  | nil => rfl
  | cons kv rest ih =>
    have hne : (name == kv.1) = false := by
      simpa using fun heq : name = kv.1 => h kv (by simp) heq.symm
    rw [List.lookup, hne]
    exact ih (fun x hx => h x (by simp [hx]))

theorem keys_of_lookup_eq_none {β : Type} (l : List (String × β)) (name : String)
    (h : l.lookup name = none) : ∀ kv ∈ l, kv.1 ≠ name := by
  induction l with
  | nil => simp
  | cons kv rest ih =>
    by_cases heq : name = kv.1
    · have hb : (name == kv.1) = true := by simpa using heq
      rw [List.lookup, hb] at h
      cases h
    · have hb : (name == kv.1) = false := by simpa using heq
      rw [List.lookup, hb] at h
      intro x hx
      rcases List.mem_cons.1 hx with rfl | hx
      · exact fun hk => heq hk.symm
      · exact ih h x hx

theorem lookup_register_ne {W : Type} (r : ToolRegistry W) (x : Registration W)
    (name : String) (hne : x.name ≠ name) (h : r.handlers.lookup name = none) :
    (r.Register x.name x.description x.parameters x.handler).handlers.lookup name = none := by
  apply lookup_eq_none_of_keys
  intro kv hkv
  rcases List.mem_append.1 hkv with hm | hm
  · exact keys_of_lookup_eq_none _ name h kv (List.mem_filter.1 hm).1
  · rw [List.mem_singleton] at hm
    rw [hm]
    exact hne

theorem lookup_registerAll_none {W : Type} (regs : List (Registration W))
    (r : ToolRegistry W) (name : String) (hne : ∀ x ∈ regs, x.name ≠ name)
    (h : r.handlers.lookup name = none) :
    (registerAll r regs).handlers.lookup name = none := by
  induction regs generalizing r with
  | nil => exact h
  | cons x rest ih =>
    have hx : x.name ≠ name := hne x (List.mem_cons_self x rest)
    exact ih (r.Register x.name x.description x.parameters x.handler)
      (fun y hy => hne y (List.mem_cons_of_mem x hy)) (lookup_register_ne r x name hx h)

theorem trace_chat_of_client {W : Type} (client : Transport W) (model : String)
    (registry : ToolRegistry W) (dbg : Bool) (n : Nat) (s : Conv W) (req : ChatRequest)
    (resp : Except String ChatResponse)
    (h : Event.chat req resp ∈ (runLoop client model registry dbg n s).trace) :
    ∃ w, (client req w).1 = resp := by
  induction n generalizing s with
  | zero => simp [runLoop] at h
  | succ n ih =>
    rcases hc : client (chatRequest model registry dbg s.messages) s.world with ⟨e | r, w1⟩
    · rw [runLoop, iteration_error client model registry dbg s e w1 hc] at h
      simp at h
      exact ⟨s.world, by rw [h.1, h.2, hc]⟩
    · by_cases hpos : 0 < r.message.toolCalls.length
      · rw [runLoop, iteration_calls client model registry dbg s r w1 hc hpos] at h
        simp at h
        rcases h with ⟨h1, h2⟩ | h | h
        · exact ⟨s.world, by rw [h1, h2, hc]⟩
        · exact absurd h (not_chat_mem_executes _ _ (toolEvents_executes registry _ w1) _ _)
        · exact ih _ h
      · have hz : r.message.toolCalls.length = 0 := by omega
        rw [runLoop, iteration_final client model registry dbg s r w1 hc hz] at h
        simp at h
        exact ⟨s.world, by rw [h.1, h.2, hc]⟩

/-! ## The claims -/

/-- C1: when the response of an iteration carries `n ≥ 1` tool calls, the iteration
does not return; it appends the assistant message and after it exactly `n` messages,
the `i`-th being the message with role "tool" whose content is the outcome of
`registry.Execute` on the `i`-th call, run in the world left by the calls before it;
the `Execute` calls happen in that same order. -/
theorem iteration_appends_tool_messages {W : Type} (client : Transport W) (model : String)
    (registry : ToolRegistry W) (dbg : Bool) (s : Conv W) (resp : ChatResponse) (w1 : W)
    (h : client (chatRequest model registry dbg s.messages) s.world = (Except.ok resp, w1))
    (hn : 1 ≤ resp.message.toolCalls.length) :
    ∃ toolMsgs evs,
      iteration client model registry dbg s =
        Step.next
          { messages := s.messages ++ [resp.message] ++ toolMsgs,
            world := worldAfterCalls registry resp.message.toolCalls w1 }
          (Event.chat (chatRequest model registry dbg s.messages) (Except.ok resp) :: evs) ∧
      toolMsgs.length = resp.message.toolCalls.length ∧
      evs.length = resp.message.toolCalls.length ∧
      ∀ i tc, resp.message.toolCalls[i]? = some tc →
        toolMsgs[i]? =
          some { role := "tool",
                 content := toolContent
                   (registry.Execute tc.function.name tc.function.arguments
                     (worldAfterCalls registry (resp.message.toolCalls.take i) w1)).out } ∧
        evs[i]? =
          some (Event.execute tc.function.name tc.function.arguments
            (registry.Execute tc.function.name tc.function.arguments
              (worldAfterCalls registry (resp.message.toolCalls.take i) w1)).out) :=
  ⟨toolMessages registry resp.message.toolCalls w1,
   toolEvents registry resp.message.toolCalls w1,
   iteration_calls client model registry dbg s resp w1 h hn,
   toolMessages_length registry _ w1,
   toolEvents_length registry _ w1,
   fun i tc hi => ⟨toolMessages_getElem? registry _ w1 i tc hi,
     toolEvents_getElem? registry _ w1 i tc hi⟩⟩

/-- Witness for C1: the first iteration of the scenario, with four tool calls. -/
theorem iteration_appends_tool_messages_witness :
    demoClient (chatRequest "m" demoRegistry false (initialMessages "hi")) 0 =
        (Except.ok demoResponse, 0) ∧
      1 ≤ demoResponse.message.toolCalls.length ∧
      ∃ toolMsgs evs,
        iteration demoClient "m" demoRegistry false
            { messages := initialMessages "hi", world := 0 } =
          Step.next
            { messages := initialMessages "hi" ++ [demoResponse.message] ++ toolMsgs,
              world := worldAfterCalls demoRegistry demoResponse.message.toolCalls 0 }
            (Event.chat (chatRequest "m" demoRegistry false (initialMessages "hi"))
              (Except.ok demoResponse) :: evs) ∧
        toolMsgs.length = demoResponse.message.toolCalls.length ∧
        evs.length = demoResponse.message.toolCalls.length ∧
        ∀ i tc, demoResponse.message.toolCalls[i]? = some tc →
          toolMsgs[i]? =
            some { role := "tool",
                   content := toolContent
                     (demoRegistry.Execute tc.function.name tc.function.arguments
                       (worldAfterCalls demoRegistry
                         (demoResponse.message.toolCalls.take i) 0)).out } ∧
          evs[i]? =
            some (Event.execute tc.function.name tc.function.arguments
              (demoRegistry.Execute tc.function.name tc.function.arguments
                (worldAfterCalls demoRegistry
                  (demoResponse.message.toolCalls.take i) 0)).out) :=
  ⟨rfl, by decide,
   iteration_appends_tool_messages demoClient "m" demoRegistry false
     { messages := initialMessages "hi", world := 0 } demoResponse 0 rfl (by decide)⟩

/-- C2: a run makes at most 10 transport calls; and when every response received is
successful and carries at least one tool call, it makes exactly 10 transport calls
and returns the error "max iterations reached". -/
theorem runAgentLoop_budget {W : Type} (client : Transport W) (model : String)
    (registry : ToolRegistry W) (dbg : Bool) (userMessage : String) (w : W) :
    chatCount (runAgentLoop client model registry dbg userMessage w).trace ≤ 10 ∧
    ((∀ req resp,
        Event.chat req resp ∈ (runAgentLoop client model registry dbg userMessage w).trace →
        ∃ cr, resp = Except.ok cr ∧ 1 ≤ cr.message.toolCalls.length) →
      chatCount (runAgentLoop client model registry dbg userMessage w).trace = 10 ∧
      (runAgentLoop client model registry dbg userMessage w).err =
        some "max iterations reached") :=
  ⟨(runLoop_shape client model registry dbg maxIterations _).chatCount_le,
   fun hall => (runLoop_shape client model registry dbg maxIterations _).exhausted hall⟩

/-- Witness for C2: a transport that asks for tool calls every time. -/
theorem runAgentLoop_budget_witness :
    chatCount (runAgentLoop busyClient "m" demoRegistry false "hi" 0).trace = 10 ∧
      (runAgentLoop busyClient "m" demoRegistry false "hi" 0).err =
        some "max iterations reached" :=
  (runAgentLoop_budget busyClient "m" demoRegistry false "hi" 0).2 (by
    intro req resp hmem
    obtain ⟨w, hw⟩ := trace_chat_of_client busyClient "m" demoRegistry false _ _ req resp hmem
    exact ⟨demoResponse, hw.symm, by decide⟩)

/-- C3: in every registry state in which `name` is not a key of the handler map, and
after any further `Register` calls under other names, `Execute name args` returns the
empty result with the error "unknown tool: " followed by the name, whatever the
arguments; it leaves the world as it was and invokes no handler. -/
theorem Execute_unregistered {W : Type} (r : ToolRegistry W)
    (regs : List (Registration W)) (name : String) (args : Args) (w : W)
    (hr : ∀ kv ∈ r.handlers, kv.1 ≠ name) (hregs : ∀ x ∈ regs, x.name ≠ name) :
    (registerAll r regs).Execute name args w =
      { out := { result := "", err := some ("unknown tool: " ++ name) },
        world := w, invoked := [] } := by
  have hl : (registerAll r regs).handlers.lookup name = none :=
    lookup_registerAll_none regs r name hregs (lookup_eq_none_of_keys _ name hr)
  simp [ToolRegistry.Execute, hl]

/-- Witness for C3: `nope` in the registry of the scenario. -/
theorem Execute_unregistered_witness :
    (∀ kv ∈ (NewToolRegistry Nat).handlers, kv.1 ≠ "nope") ∧
      (∀ x ∈ demoRegistrations, x.name ≠ "nope") ∧
      demoRegistry.Execute "nope" [("city", JVal.str "Rijeka")] 7 =
        { out := { result := "", err := some "unknown tool: nope" },
          world := 7, invoked := [] } :=
  ⟨by simp [NewToolRegistry], by simp [demoRegistrations],
   Execute_unregistered (NewToolRegistry Nat) demoRegistrations "nope"
     [("city", JVal.str "Rijeka")] 7 (by simp [NewToolRegistry])
     (by simp [demoRegistrations])⟩

/-- C4: in every run, a response with tool calls is followed by the execution of all
of its calls in order, whatever their outcomes, and then by the next transport call
or, when the budget is used up, by the return of "max iterations reached"; and the
run returns an error only as "max iterations reached" after 10 transport calls or as
"chat error: ..." for a failed transport call, which is then the last event. -/
theorem runAgentLoop_tool_failure_recoverable {W : Type} (client : Transport W)
    (model : String) (registry : ToolRegistry W) (dbg : Bool) (userMessage : String)
    (w : W) :
    (∀ pre post req resp,
      (runAgentLoop client model registry dbg userMessage w).trace =
        pre ++ Event.chat req (Except.ok resp) :: post →
      1 ≤ resp.message.toolCalls.length →
      ∃ evs rest, post = evs ++ rest ∧
        List.Forall₂ Event.Executes evs resp.message.toolCalls ∧
        ((rest = [] ∧ (runAgentLoop client model registry dbg userMessage w).err =
            some "max iterations reached") ∨
          ∃ req2 resp2 rest2, rest = Event.chat req2 resp2 :: rest2)) ∧
    (∀ e, (runAgentLoop client model registry dbg userMessage w).err = some e →
      (e = "max iterations reached" ∧
        chatCount (runAgentLoop client model registry dbg userMessage w).trace = 10) ∨
      (∃ pre req te,
        (runAgentLoop client model registry dbg userMessage w).trace =
          pre ++ [Event.chat req (Except.error te)] ∧
        e = "chat error: " ++ te)) :=
  ⟨fun pre post req resp htr hpos =>
     ((runLoop_shape client model registry dbg maxIterations _).after_chat pre post req
       (Except.ok resp) htr).2.2 resp rfl hpos,
   fun e he => (runLoop_shape client model registry dbg maxIterations _).err_cases e he⟩

/-- Witness for C4: the first turn of the scenario has an unknown tool and a failing
handler among its four calls. -/
theorem runAgentLoop_tool_failure_recoverable_witness :
    ∃ evs rest,
      (runAgentLoop demoClient "m" demoRegistry false "hi" 0).trace.tail = evs ++ rest ∧
      List.Forall₂ Event.Executes evs demoResponse.message.toolCalls ∧
      ((rest = [] ∧ (runAgentLoop demoClient "m" demoRegistry false "hi" 0).err =
          some "max iterations reached") ∨
        ∃ req2 resp2 rest2, rest = Event.chat req2 resp2 :: rest2) :=
  (runAgentLoop_tool_failure_recoverable demoClient "m" demoRegistry false "hi" 0).1 []
    (runAgentLoop demoClient "m" demoRegistry false "hi" 0).trace.tail
    (chatRequest "m" demoRegistry false (initialMessages "hi")) demoResponse rfl
    (by decide)

/-- C5: when a transport call of a run returns an error, that call is the last
event of the run (no tool execution and no transport call after it) and the run
returns the error "chat error: " followed by the transport error. -/
theorem runAgentLoop_transport_error_fatal {W : Type} (client : Transport W)
    (model : String) (registry : ToolRegistry W) (dbg : Bool) (userMessage : String)
    (w : W) (pre post : List Event) (req : ChatRequest) (e : String)
    (h : (runAgentLoop client model registry dbg userMessage w).trace =
      pre ++ Event.chat req (Except.error e) :: post) :
    post = [] ∧
      (runAgentLoop client model registry dbg userMessage w).err =
        some ("chat error: " ++ e) :=
  ((runLoop_shape client model registry dbg maxIterations _).after_chat pre post req
    (Except.error e) h).1 e rfl

/-- Witness for C5: the transport is down. -/
theorem runAgentLoop_transport_error_fatal_witness :
    (runAgentLoop downClient "m" demoRegistry false "hi" 0).trace =
        [] ++ Event.chat (chatRequest "m" demoRegistry false (initialMessages "hi"))
          (Except.error "connection refused") :: [] ∧
      ([] : List Event) = [] ∧
      (runAgentLoop downClient "m" demoRegistry false "hi" 0).err =
        some ("chat error: " ++ "connection refused") :=
  ⟨rfl,
   runAgentLoop_transport_error_fatal downClient "m" demoRegistry false "hi" 0 [] []
     (chatRequest "m" demoRegistry false (initialMessages "hi")) "connection refused" rfl⟩

/-- C6: when a transport call of a run succeeds with a response that carries no tool
call, that call is the last event of the run (no tool execution and no transport
call after it) and the run returns no error. -/
theorem runAgentLoop_final_answer {W : Type} (client : Transport W)
    (model : String) (registry : ToolRegistry W) (dbg : Bool) (userMessage : String)
    (w : W) (pre post : List Event) (req : ChatRequest) (resp : ChatResponse)
    (h : (runAgentLoop client model registry dbg userMessage w).trace =
      pre ++ Event.chat req (Except.ok resp) :: post)
    (hc : resp.message.toolCalls.length = 0) :
    post = [] ∧ (runAgentLoop client model registry dbg userMessage w).err = none :=
  ((runLoop_shape client model registry dbg maxIterations _).after_chat pre post req
    (Except.ok resp) h).2.1 resp rfl hc

/-- Witness for C6: the second transport call of the scenario brings the final
answer, after the five events of the first turn. -/
theorem runAgentLoop_final_answer_witness :
    (runAgentLoop demoClient "m" demoRegistry false "hi" 0).trace =
        (runAgentLoop demoClient "m" demoRegistry false "hi" 0).trace.take 5 ++
          Event.chat (chatRequest "m" demoRegistry false
            (runAgentLoop demoClient "m" demoRegistry false "hi" 0).messages)
            (Except.ok finalResponse) :: [] ∧
      finalResponse.message.toolCalls.length = 0 ∧
      ([] : List Event) = [] ∧
      (runAgentLoop demoClient "m" demoRegistry false "hi" 0).err = none :=
  ⟨rfl, rfl,
   runAgentLoop_final_answer demoClient "m" demoRegistry false "hi" 0
     ((runAgentLoop demoClient "m" demoRegistry false "hi" 0).trace.take 5) []
     (chatRequest "m" demoRegistry false
       (runAgentLoop demoClient "m" demoRegistry false "hi" 0).messages)
     finalResponse rfl rfl⟩

/-! ## Lemmas on the command executor -/

theorem needsConfirm_iff (T : GoRuntime) (policy : Policy) (command : String) :
    needsConfirm T policy command = true ↔
      (policy.requireConfirm = true ∧
        (policy.autoApproveReads = false ∨ isReadOnlyCommand T command = false)) := by
  unfold needsConfirm
  cases policy.autoApproveReads <;> cases isReadOnlyCommand T command <;> simp

theorem runSubprocess_events {W : Type} (sh : Shell W) (command workingDir : String)
    (timeoutSeconds : Int) (w : W) :
    (runSubprocess sh command workingDir timeoutSeconds w).events =
      [CmdEvent.spawn command workingDir (timeoutDuration timeoutSeconds)] := by
  cases h : (sh.run command workingDir (timeoutDuration timeoutSeconds) w).1.err with
  | nil => simp [runSubprocess, h]
  | exitError code => simp [runSubprocess, h]
  | other msg =>
    cases hd : (sh.run command workingDir (timeoutDuration timeoutSeconds)
        w).1.deadlineExceeded <;>
      simp [runSubprocess, h, hd]

theorem runSubprocess_world {W : Type} (sh : Shell W) (command workingDir : String)
    (timeoutSeconds : Int) (w : W) :
    (runSubprocess sh command workingDir timeoutSeconds w).world =
      (sh.run command workingDir (timeoutDuration timeoutSeconds) w).2 := by
  cases h : (sh.run command workingDir (timeoutDuration timeoutSeconds) w).1.err with
  | nil => simp [runSubprocess, h]
  | exitError code => simp [runSubprocess, h]
  | other msg =>
    cases hd : (sh.run command workingDir (timeoutDuration timeoutSeconds)
        w).1.deadlineExceeded <;>
      simp [runSubprocess, h, hd]

theorem timeoutDuration_thirty : timeoutDuration 30 = 30 * second := by decide

/-- Unfolding of the handler on a valid command. -/
theorem run_command_valid {W : Type} (T : GoRuntime) (policy : Policy) (sh : Shell W)
    (args : Args) (w : W) (command : String)
    (hcmd : argString args "command" = some command) (hne : command ≠ "") :
    run_command T policy sh args w =
      if needsConfirm T policy command then
        confirmThenRun T sh command (workingDirOf args) (timeoutSecondsOf T args) w
      else
        runSubprocess sh command (workingDirOf args) (timeoutSecondsOf T args) w := by
  simp [run_command, hcmd, hne]

theorem confirmThenRun_events {W : Type} (T : GoRuntime) (sh : Shell W)
    (command workingDir : String) (timeoutSeconds : Int) (w : W) :
    ∃ response err rest,
      (confirmThenRun T sh command workingDir timeoutSeconds w).events =
        CmdEvent.confirm command workingDir :: CmdEvent.read response err :: rest := by
  rcases hr : sh.readString w with ⟨⟨response, _ | e⟩, w1⟩
  · by_cases ha : trimSpace (toLower T response) ≠ "y" ∧ trimSpace (toLower T response) ≠ "yes"
    · exact ⟨response, none, [], by simp [confirmThenRun, hr, ha]⟩
    · exact ⟨response, none, _, by simp [confirmThenRun, hr, ha]; rfl⟩
  · exact ⟨response, some e, [], by simp [confirmThenRun, hr]⟩

/-- What the handler does when the operator's answer cannot be read or is not an
affirmative. -/
theorem confirmThenRun_refused {W : Type} (T : GoRuntime) (sh : Shell W)
    (command workingDir : String) (timeoutSeconds : Int) (w w1 : W) (response : String)
    (rerr : Option String) (hread : sh.readString w = ((response, rerr), w1))
    (hans : rerr ≠ none ∨
      ¬ (trimSpace (toLower T response) = "y" ∨ trimSpace (toLower T response) = "yes")) :
    confirmThenRun T sh command workingDir timeoutSeconds w =
      { out :=
          { result := "",
            err := some (match rerr with
              | some e => "confirmation failed: " ++ e
              | none => "command execution denied by user") },
        world := w1,
        events := [CmdEvent.confirm command workingDir, CmdEvent.read response rerr] } := by
  cases rerr with
  | some e => simp [confirmThenRun, hread]
  | none =>
    have ha : trimSpace (toLower T response) ≠ "y" ∧ trimSpace (toLower T response) ≠ "yes" := by
      rcases hans with h | h
      · exact absurd rfl h
      · exact ⟨fun h1 => h (Or.inl h1), fun h2 => h (Or.inr h2)⟩
    simp [confirmThenRun, hread, ha]

/-- C7: for every runtime and every valid command the handler prompts for
confirmation exactly when `requireConfirm` is set and (`autoApproveReads` is not set
or the command is not classified read-only); when it does, the prompt and the read
of the answer come before anything else, and when it does not, the only thing the
handler does is start the subprocess.  With both flags set, `ls .` is run without a
prompt, in "." and with a timeout of 30 seconds. -/
theorem run_command_confirmation {W : Type} (T : GoRuntime) (policy : Policy)
    (sh : Shell W) (args : Args) (w : W) (command : String)
    (hcmd : argString args "command" = some command) (hne : command ≠ "") :
    ((∃ c d, CmdEvent.confirm c d ∈ (run_command T policy sh args w).events) ↔
      (policy.requireConfirm = true ∧
        (policy.autoApproveReads = false ∨ isReadOnlyCommand T command = false))) ∧
    ((policy.requireConfirm = true ∧
        (policy.autoApproveReads = false ∨ isReadOnlyCommand T command = false)) →
      ∃ response err rest, (run_command T policy sh args w).events =
        CmdEvent.confirm command (workingDirOf args) :: CmdEvent.read response err :: rest) ∧
    (¬ (policy.requireConfirm = true ∧
        (policy.autoApproveReads = false ∨ isReadOnlyCommand T command = false)) →
      (run_command T policy sh args w).events =
        [CmdEvent.spawn command (workingDirOf args)
          (timeoutDuration (timeoutSecondsOf T args))]) ∧
    (run_command T { requireConfirm := true, autoApproveReads := true } sh
        [("command", JVal.str "ls .")] w).events =
      [CmdEvent.spawn "ls ." "." (30 * second)] := by
  have hyes : needsConfirm T policy command = true →
      ∃ response err rest, (run_command T policy sh args w).events =
        CmdEvent.confirm command (workingDirOf args) :: CmdEvent.read response err :: rest := by
    intro hn
    rw [run_command_valid T policy sh args w command hcmd hne, if_pos hn]
    exact confirmThenRun_events T sh command _ _ w
  have hno : needsConfirm T policy command ≠ true →
      (run_command T policy sh args w).events =
        [CmdEvent.spawn command (workingDirOf args)
          (timeoutDuration (timeoutSecondsOf T args))] := by
    intro hn
    rw [run_command_valid T policy sh args w command hcmd hne, if_neg hn]
    exact runSubprocess_events sh command _ _ w
  refine ⟨?_, ?_, ?_, ?_⟩
  · rw [← needsConfirm_iff]
    constructor
    · rintro ⟨c, d, hmem⟩
      by_contra hn
      rw [hno hn] at hmem
      simp at hmem
    · intro hn
      obtain ⟨response, err, rest, hev⟩ := hyes hn
      exact ⟨command, workingDirOf args, by rw [hev]; simp⟩
  · intro hc
    exact hyes ((needsConfirm_iff T policy command).2 hc)
  · intro hc
    exact hno (fun hn => hc ((needsConfirm_iff T policy command).1 hn))
  · have hro : isReadOnlyCommand T "ls ." = true := rfl
    have hnc : ¬ needsConfirm T { requireConfirm := true, autoApproveReads := true } "ls ." =
        true := by simp [needsConfirm, hro]
    rw [run_command_valid T { requireConfirm := true, autoApproveReads := true } sh
      [("command", JVal.str "ls .")] w "ls ." rfl (by decide), if_neg hnc,
      ← timeoutDuration_thirty]
    exact runSubprocess_events sh "ls ." _ _ w

/-- Witness for C7: under the default flags `rm x` is prompted for, and so is not
`doc\u212Aer ps` (written with the Kelvin sign), which `strings.ToLower` turns into
`docker ps`. -/
theorem run_command_confirmation_witness :
    (argString [("command", JVal.str "rm x")] "command" = some "rm x" ∧ "rm x" ≠ "" ∧
      ∃ response err rest,
        (run_command goRuntime { requireConfirm := true, autoApproveReads := true }
          (cannedShell "y\n" completedRun) [("command", JVal.str "rm x")] 0).events =
        CmdEvent.confirm "rm x" (workingDirOf [("command", JVal.str "rm x")]) ::
          CmdEvent.read response err :: rest) ∧
    (run_command goRuntime { requireConfirm := true, autoApproveReads := true }
        (cannedShell "n\n" completedRun) [("command", JVal.str "doc\u212Aer ps")] 0).events =
      [CmdEvent.spawn "doc\u212Aer ps" "." (30 * second)] :=
  ⟨⟨rfl, by decide,
    (run_command_confirmation goRuntime { requireConfirm := true, autoApproveReads := true }
      (cannedShell "y\n" completedRun) [("command", JVal.str "rm x")] 0 "rm x" rfl
      (by decide)).2.1 ⟨rfl, Or.inr (by decide)⟩⟩,
   (run_command_confirmation goRuntime { requireConfirm := true, autoApproveReads := true }
      (cannedShell "n\n" completedRun) [("command", JVal.str "doc\u212Aer ps")] 0
      "doc\u212Aer ps" rfl (by decide)).2.2.1 (by decide)⟩

/-- C8, counterexample: confirmation is required for `rm x`, and the operator types
`no` and closes the input without ending the line, so that the read returns `no` with
the error `EOF`.  The answer is not an affirmative, but the handler returns the error
"confirmation failed: EOF", not "command execution denied by user". -/
theorem run_command_answer_cut_short :
    needsConfirm goRuntime { requireConfirm := true, autoApproveReads := true } "rm x" =
        true ∧
      (endedInputShell "no" completedRun).readString 0 = (("no", some "EOF"), 1) ∧
      ¬ (trimSpace (toLower goRuntime "no") = "y" ∨
        trimSpace (toLower goRuntime "no") = "yes") ∧
      (run_command goRuntime { requireConfirm := true, autoApproveReads := true }
          (endedInputShell "no" completedRun) [("command", JVal.str "rm x")] 0).out.err =
        some "confirmation failed: EOF" ∧
      (run_command goRuntime { requireConfirm := true, autoApproveReads := true }
          (endedInputShell "no" completedRun) [("command", JVal.str "rm x")] 0).out.err ≠
        some "command execution denied by user" := by
  refine ⟨by decide, rfl, by decide, by decide, by decide⟩

/-- C8 as amended: when confirmation is required for a valid command, then, if the
read of the operator's answer fails with error `e`, the handler returns the error
"confirmation failed: " followed by `e`; and if the answer is read and, lower-cased
and trimmed, is neither "y" nor "yes", the handler returns the error "command
execution denied by user".  In both cases the result is empty, all the handler has
done is prompt and read, the world is the one left by the read, and no subprocess
was started. -/
theorem run_command_not_confirmed {W : Type} (T : GoRuntime) (policy : Policy)
    (sh : Shell W) (args : Args) (w w1 : W) (command response : String)
    (rerr : Option String)
    (hcmd : argString args "command" = some command) (hne : command ≠ "")
    (hreq : policy.requireConfirm = true ∧
      (policy.autoApproveReads = false ∨ isReadOnlyCommand T command = false))
    (hread : sh.readString w = ((response, rerr), w1))
    (hans : rerr ≠ none ∨
      ¬ (trimSpace (toLower T response) = "y" ∨ trimSpace (toLower T response) = "yes")) :
    (∀ e, rerr = some e →
      (run_command T policy sh args w).out.err = some ("confirmation failed: " ++ e)) ∧
    (rerr = none →
      (run_command T policy sh args w).out.err = some "command execution denied by user") ∧
    (run_command T policy sh args w).out.result = "" ∧
    (run_command T policy sh args w).world = w1 ∧
    (run_command T policy sh args w).events =
      [CmdEvent.confirm command (workingDirOf args), CmdEvent.read response rerr] ∧
    ∀ c d t, CmdEvent.spawn c d t ∉ (run_command T policy sh args w).events := by
  have hn : needsConfirm T policy command = true := (needsConfirm_iff T policy command).2 hreq
  have heq := confirmThenRun_refused T sh command (workingDirOf args)
    (timeoutSecondsOf T args) w w1 response rerr hread hans
  rw [run_command_valid T policy sh args w command hcmd hne, if_pos hn, heq]
  refine ⟨?_, ?_, rfl, rfl, rfl, ?_⟩
  · intro e he
    subst he
    rfl
  · intro he
    subst he
    rfl
  · intro c d t hmem
    simp at hmem

/-- Witness for C8 as amended: `rm x` under the default flags, answered with `no`,
and answered with `y` cut short by the end of the input. -/
theorem run_command_not_confirmed_witness :
    ((run_command goRuntime { requireConfirm := true, autoApproveReads := true }
          (cannedShell "no\n" completedRun) [("command", JVal.str "rm x")] 0).out.err =
        some "command execution denied by user" ∧
      (run_command goRuntime { requireConfirm := true, autoApproveReads := true }
          (cannedShell "no\n" completedRun) [("command", JVal.str "rm x")] 0).events =
        [CmdEvent.confirm "rm x" ".", CmdEvent.read "no\n" none]) ∧
    ((run_command goRuntime { requireConfirm := true, autoApproveReads := true }
          (endedInputShell "y" completedRun) [("command", JVal.str "rm x")] 0).out.err =
        some ("confirmation failed: " ++ "EOF") ∧
      ∀ c d t, CmdEvent.spawn c d t ∉
        (run_command goRuntime { requireConfirm := true, autoApproveReads := true }
          (endedInputShell "y" completedRun) [("command", JVal.str "rm x")] 0).events) :=
  ⟨⟨(run_command_not_confirmed goRuntime { requireConfirm := true, autoApproveReads := true }
      (cannedShell "no\n" completedRun) [("command", JVal.str "rm x")] 0 1 "rm x" "no\n"
      none rfl (by decide) ⟨rfl, Or.inr (by decide)⟩ rfl (Or.inr (by decide))).2.1 rfl,
    (run_command_not_confirmed goRuntime { requireConfirm := true, autoApproveReads := true }
      (cannedShell "no\n" completedRun) [("command", JVal.str "rm x")] 0 1 "rm x" "no\n"
      none rfl (by decide) ⟨rfl, Or.inr (by decide)⟩ rfl (Or.inr (by decide))).2.2.2.2.1⟩,
   ⟨(run_command_not_confirmed goRuntime { requireConfirm := true, autoApproveReads := true }
      (endedInputShell "y" completedRun) [("command", JVal.str "rm x")] 0 1 "rm x" "y"
      (some "EOF") rfl (by decide) ⟨rfl, Or.inr (by decide)⟩ rfl
      (Or.inl (by simp))).1 "EOF" rfl,
    (run_command_not_confirmed goRuntime { requireConfirm := true, autoApproveReads := true }
      (endedInputShell "y" completedRun) [("command", JVal.str "rm x")] 0 1 "rm x" "y"
      (some "EOF") rfl (by decide) ⟨rfl, Or.inr (by decide)⟩ rfl
      (Or.inl (by simp))).2.2.2.2.2⟩⟩

/-- C9, the code at the failing input: `sleep 60` with `timeout_seconds` 1 and no
confirmation required, the subprocess being killed at the deadline (`cmd.Run()`
returns an exit-status error with exit code -1 while the context reports the
deadline).  The handler returns no error and the payload built at its end: exit code
-1, `success` false, and no `error` field. -/
theorem run_command_killed_at_deadline :
    killedRun.deadlineExceeded = true ∧
      (run_command goRuntime { requireConfirm := false, autoApproveReads := true }
        (cannedShell "" killedRun)
        [("command", JVal.str "sleep 60"), ("timeout_seconds", JVal.num 1)] 0).out.err =
        none ∧
      (run_command goRuntime { requireConfirm := false, autoApproveReads := true }
        (cannedShell "" killedRun)
        [("command", JVal.str "sleep 60"), ("timeout_seconds", JVal.num 1)] 0).out.result =
        jsonMarshal (resultPayload "sleep 60" "." killedRun (-1)) ∧
      (resultPayload "sleep 60" "." killedRun (-1)).lookup "exit_code" =
        some (PVal.int (-1)) ∧
      (resultPayload "sleep 60" "." killedRun (-1)).lookup "success" =
        some (PVal.bool false) ∧
      (resultPayload "sleep 60" "." killedRun (-1)).lookup "error" = none ∧
      jsonMarshal (resultPayload "sleep 60" "." killedRun (-1)) =
        "\x7b\"command\":\"sleep 60\",\"duration_ms\":1000,\"exit_code\":-1," ++
        "\"stderr\":\"\",\"stdout\":\"tick\\n\",\"success\":false," ++
        "\"working_dir\":\".\"\x7d" := by
  refine ⟨rfl, rfl, rfl, ?_, ?_, ?_, ?_⟩ <;> decide

/-- C10, the code at the failing input: `sleep 5` with `timeout_seconds` 0 and no
confirmation required, the run failing with the context error while the context
reports the deadline.  The handler returns the timeout payload, whose fields are
`command`, `stdout`, `stderr`, `exit_code`, `error` and `duration_ms`: it has neither
`working_dir` nor `success`. -/
theorem run_command_timeout_payload_fields :
    (run_command goRuntime { requireConfirm := false, autoApproveReads := true }
        (cannedShell "" expiredRun)
        [("command", JVal.str "sleep 5"), ("timeout_seconds", JVal.num 0)] 0).out.err =
        none ∧
      (run_command goRuntime { requireConfirm := false, autoApproveReads := true }
        (cannedShell "" expiredRun)
        [("command", JVal.str "sleep 5"), ("timeout_seconds", JVal.num 0)] 0).out.result =
        jsonMarshal (timeoutPayload "sleep 5" expiredRun) ∧
      (timeoutPayload "sleep 5" expiredRun).map Prod.fst =
        ["command", "stdout", "stderr", "exit_code", "error", "duration_ms"] ∧
      (timeoutPayload "sleep 5" expiredRun).lookup "working_dir" = none ∧
      (timeoutPayload "sleep 5" expiredRun).lookup "success" = none ∧
      (timeoutPayload "sleep 5" expiredRun).lookup "exit_code" = some (PVal.int (-1)) ∧
      (timeoutPayload "sleep 5" expiredRun).lookup "error" =
        some (PVal.str "command timed out") ∧
      jsonMarshal (timeoutPayload "sleep 5" expiredRun) =
        "\x7b\"command\":\"sleep 5\",\"duration_ms\":0,\"error\":\"command timed out\"," ++
        "\"exit_code\":-1,\"stderr\":\"\",\"stdout\":\"\"\x7d" := by
  refine ⟨rfl, rfl, ?_, ?_, ?_, ?_, ?_, ?_⟩ <;> decide

/-! ## Results of the command executor -/

theorem run_command_started {W : Type} (T : GoRuntime) (policy : Policy) (sh : Shell W) (args : Args)
    (w w0 : W) (command : String) (hcmd : argString args "command" = some command)
    (hne : command ≠ "") (hstart : StartsAt T policy sh command w w0) :
    (run_command T policy sh args w).out =
        (runSubprocess sh command (workingDirOf args) (timeoutSecondsOf T args) w0).out ∧
      (run_command T policy sh args w).world =
        (runSubprocess sh command (workingDirOf args) (timeoutSecondsOf T args) w0).world := by
  rw [run_command_valid T policy sh args w command hcmd hne]
  rcases hstart with ⟨hn, rfl⟩ | ⟨hn, response, hread, hans⟩
  · simp [hn]
  · have ha : ¬ (trimSpace (toLower T response) ≠ "y" ∧ trimSpace (toLower T response) ≠ "yes") := by
      rcases hans with h | h <;> simp [h]
    simp [hn, confirmThenRun, hread, ha]

theorem runSubprocess_completed {W : Type} (sh : Shell W) (command workingDir : String)
    (timeoutSeconds : Int) (w : W) (c : Int)
    (hc : completedExitCode (sh.run command workingDir (timeoutDuration timeoutSeconds) w).1.err = some c) :
    (runSubprocess sh command workingDir timeoutSeconds w).out =
      { result := jsonMarshal (resultPayload command workingDir
          (sh.run command workingDir (timeoutDuration timeoutSeconds) w).1 c),
        err := none } := by
  cases h : (sh.run command workingDir (timeoutDuration timeoutSeconds) w).1.err with
  | nil =>
    rw [h] at hc
    cases hc
    simp [runSubprocess, h]
  | exitError code =>
    rw [h] at hc
    cases hc
    simp [runSubprocess, h]
  | other msg =>
    rw [h] at hc
    cases hc

/-- C11: when the handler starts the subprocess for a valid command and the run ends
by itself with exit code `c` (0 when the run reports no error), the handler returns no
error and the marshalled payload with exactly the fields `command`, `working_dir`,
`stdout`, `stderr`, `exit_code`, `duration_ms` and `success`, where `exit_code` is `c`
and `success` is true exactly when `c = 0`. -/
theorem run_command_completed {W : Type} (T : GoRuntime) (policy : Policy) (sh : Shell W) (args : Args)
    (w w0 : W) (command : String) (c : Int)
    (hcmd : argString args "command" = some command) (hne : command ≠ "")
    (hstart : StartsAt T policy sh command w w0)
    (hc : completedExitCode
      (sh.run command (workingDirOf args) (timeoutDuration (timeoutSecondsOf T args)) w0).1.err = some c) :
    (run_command T policy sh args w).out =
        { result := jsonMarshal (resultPayload command (workingDirOf args)
            (sh.run command (workingDirOf args) (timeoutDuration (timeoutSecondsOf T args)) w0).1 c),
          err := none } ∧
      resultPayload command (workingDirOf args)
          (sh.run command (workingDirOf args) (timeoutDuration (timeoutSecondsOf T args)) w0).1 c =
        [ ("command", PVal.str command),
          ("working_dir", PVal.str (workingDirOf args)),
          ("stdout", PVal.str
            (sh.run command (workingDirOf args) (timeoutDuration (timeoutSecondsOf T args)) w0).1.stdout),
          ("stderr", PVal.str
            (sh.run command (workingDirOf args) (timeoutDuration (timeoutSecondsOf T args)) w0).1.stderr),
          ("exit_code", PVal.int c),
          ("duration_ms", PVal.int
            (sh.run command (workingDirOf args) (timeoutDuration (timeoutSecondsOf T args)) w0).1.durationMs),
          ("success", PVal.bool (decide (c = 0))) ] := by
  refine ⟨?_, ?_⟩
  · rw [(run_command_started T policy sh args w w0 command hcmd hne hstart).1]
    exact runSubprocess_completed sh command _ _ w0 c hc
  · have hb : (c == 0) = decide (c = 0) := by
      by_cases h0 : c = 0 <;> simp [h0]
    simp [resultPayload, hb]

/-- Witness for C11: `ls` under the default flags, run to completion with exit code 0. -/
theorem run_command_completed_witness :
    (run_command goRuntime { requireConfirm := true, autoApproveReads := true }
        (cannedShell "" completedRun) [("command", JVal.str "ls")] 0).out.result =
      "\x7b\"command\":\"ls\",\"duration_ms\":3,\"exit_code\":0,\"stderr\":\"\"," ++
      "\"stdout\":\"main.go\\n\",\"success\":true,\"working_dir\":\".\"\x7d" :=
  ((congrArg Outcome.result
    (run_command_completed goRuntime { requireConfirm := true, autoApproveReads := true }
      (cannedShell "" completedRun) [("command", JVal.str "ls")] 0 0 "ls" 0 rfl (by decide)
      (Or.inl ⟨by decide, rfl⟩) rfl).1).trans (by decide))

theorem argString_eq_none_iff (args : Args) (key : String) :
    argString args key = none ↔ ∀ v, args.lookup key ≠ some (JVal.str v) := by
  unfold argString
  cases h : args.lookup key with
  | none => simp
  | some x => cases x <;> simp

theorem argFloat_eq_none_iff (args : Args) (key : String) :
    argFloat args key = none ↔ ∀ x, args.lookup key ≠ some (JVal.num x) := by
  unfold argFloat
  cases h : args.lookup key with
  | none => simp
  | some x => cases x <;> simp

theorem argString_of_lookup (args : Args) (key v : String)
    (h : args.lookup key = some (JVal.str v)) : argString args key = some v := by
  simp [argString, h]

/-- The three courses of the handler on a valid command, by what it does. -/
theorem run_command_events {W : Type} (T : GoRuntime) (policy : Policy) (sh : Shell W)
    (args : Args) (w : W) (command : String)
    (hcmd : argString args "command" = some command) (hne : command ≠ "") :
    (run_command T policy sh args w).events =
        [CmdEvent.spawn command (workingDirOf args)
          (timeoutDuration (timeoutSecondsOf T args))] ∨
      (∃ response err, (run_command T policy sh args w).events =
        [CmdEvent.confirm command (workingDirOf args), CmdEvent.read response err]) ∨
      (∃ response, (run_command T policy sh args w).events =
        [CmdEvent.confirm command (workingDirOf args), CmdEvent.read response none,
          CmdEvent.spawn command (workingDirOf args)
            (timeoutDuration (timeoutSecondsOf T args))]) := by
  rw [run_command_valid T policy sh args w command hcmd hne]
  by_cases hn : needsConfirm T policy command = true
  · rw [if_pos hn]
    rcases hr : sh.readString w with ⟨⟨response, _ | e⟩, w1⟩
    · by_cases ha : trimSpace (toLower T response) ≠ "y" ∧
          trimSpace (toLower T response) ≠ "yes"
      · exact Or.inr (Or.inl ⟨response, none, by simp [confirmThenRun, hr, ha]⟩)
      · exact Or.inr (Or.inr ⟨response, by
          simp [confirmThenRun, hr, ha, runSubprocess_events]⟩)
    · exact Or.inr (Or.inl ⟨response, some e, by simp [confirmThenRun, hr]⟩)
  · rw [if_neg hn]
    exact Or.inl (runSubprocess_events sh command _ _ w)

/-- When the handler gets as far as the subprocess, the start of the subprocess is the
last thing it does, nothing before it is a start, and the world it leaves is the one
left by that run. -/
theorem run_command_started_events {W : Type} (T : GoRuntime) (policy : Policy)
    (sh : Shell W) (args : Args) (w w0 : W) (command : String)
    (hcmd : argString args "command" = some command) (hne : command ≠ "")
    (hstart : StartsAt T policy sh command w w0) :
    (∃ pre, (run_command T policy sh args w).events =
        pre ++ [CmdEvent.spawn command (workingDirOf args)
          (timeoutDuration (timeoutSecondsOf T args))] ∧
      ∀ c d t, CmdEvent.spawn c d t ∉ pre) ∧
    (run_command T policy sh args w).world =
      (sh.run command (workingDirOf args) (timeoutDuration (timeoutSecondsOf T args)) w0).2 := by
  refine ⟨?_, ?_⟩
  · rw [run_command_valid T policy sh args w command hcmd hne]
    rcases hstart with ⟨hn, rfl⟩ | ⟨hn, response, hread, hans⟩
    · refine ⟨[], ?_, by simp⟩
      simp [hn, runSubprocess_events]
    · have ha : ¬ (trimSpace (toLower T response) ≠ "y" ∧
          trimSpace (toLower T response) ≠ "yes") := by
        rcases hans with h | h <;> simp [h]
      refine ⟨[CmdEvent.confirm command (workingDirOf args), CmdEvent.read response none],
        ?_, by simp⟩
      simp [hn, confirmThenRun, hread, ha, runSubprocess_events]
  · rw [(run_command_started T policy sh args w w0 command hcmd hne hstart).2]
    exact runSubprocess_world sh command _ _ w0

/-- C17: if `command` is absent, not a string or the empty string, the handler returns
the error "command must be a non-empty string" having done nothing (no prompt, no
read, no subprocess, world unchanged).  Otherwise every prompt of the handler shows,
and every subprocess start of the handler uses, the working directory `workingDirOf
args`, and every subprocess start is under the timeout `timeoutDuration
(timeoutSecondsOf T args)`; when the handler gets as far as the subprocess, that start
is the last thing it does and the run made with this directory and this timeout
leaves the world the handler returns.  The working directory is the argument
`working_dir` when that is a non-empty string and "." when it is absent, not a string
or empty; `timeout_seconds` absent or not a number gives 30, and the timeout is then
30 seconds. -/
theorem run_command_arguments {W : Type} (T : GoRuntime) (policy : Policy) (sh : Shell W)
    (args : Args) (w : W) :
    ((args.lookup "command" = none ∨
        (∃ v, args.lookup "command" = some v ∧ ∀ s, v ≠ JVal.str s) ∨
        args.lookup "command" = some (JVal.str "")) →
      run_command T policy sh args w =
        { out := { result := "", err := some "command must be a non-empty string" },
          world := w, events := [] }) ∧
    (∀ command, args.lookup "command" = some (JVal.str command) → command ≠ "" →
      (∀ c d t, CmdEvent.spawn c d t ∈ (run_command T policy sh args w).events →
        c = command ∧ d = workingDirOf args ∧
          t = timeoutDuration (timeoutSecondsOf T args)) ∧
      (∀ c d, CmdEvent.confirm c d ∈ (run_command T policy sh args w).events →
        c = command ∧ d = workingDirOf args) ∧
      (∀ w0, StartsAt T policy sh command w w0 →
        (∃ pre, (run_command T policy sh args w).events =
            pre ++ [CmdEvent.spawn command (workingDirOf args)
              (timeoutDuration (timeoutSecondsOf T args))] ∧
          ∀ c d t, CmdEvent.spawn c d t ∉ pre) ∧
        (run_command T policy sh args w).world =
          (sh.run command (workingDirOf args)
            (timeoutDuration (timeoutSecondsOf T args)) w0).2)) ∧
    (∀ wd, args.lookup "working_dir" = some (JVal.str wd) → wd ≠ "" →
      workingDirOf args = wd) ∧
    ((∀ wd, args.lookup "working_dir" = some (JVal.str wd) → wd = "") →
      workingDirOf args = ".") ∧
    ((∀ x, args.lookup "timeout_seconds" ≠ some (JVal.num x)) →
      timeoutSecondsOf T args = 30 ∧
        timeoutDuration (timeoutSecondsOf T args) = 30 * second) := by
  refine ⟨?_, ?_, ?_, ?_, ?_⟩
  · rintro (h | ⟨v, hv, hns⟩ | h)
    · have : argString args "command" = none := by simp [argString, h]
      simp [run_command, this]
    · have : argString args "command" = none :=
        (argString_eq_none_iff args "command").2 (fun s hs => hns s (by
          rw [hv] at hs
          exact Option.some.inj hs))
      simp [run_command, this]
    · have : argString args "command" = some "" := argString_of_lookup args _ _ h
      simp [run_command, this]
  · intro command hl hne
    have hcmd := argString_of_lookup args _ _ hl
    refine ⟨?_, ?_, ?_⟩
    · rcases run_command_events T policy sh args w command hcmd hne with
        h | ⟨response, err, h⟩ | ⟨response, h⟩
      · rw [h]
        simp
      · rw [h]
        simp
      · rw [h]
        simp
    · rcases run_command_events T policy sh args w command hcmd hne with
        h | ⟨response, err, h⟩ | ⟨response, h⟩
      · rw [h]
        simp
      · rw [h]
        simp
      · rw [h]
        simp
    · intro w0 hstart
      exact run_command_started_events T policy sh args w w0 command hcmd hne hstart
  · intro wd hl hne
    simp [workingDirOf, argString_of_lookup args _ _ hl, hne]
  · intro h
    unfold workingDirOf
    cases hs : argString args "working_dir" with
    | none => rfl
    | some wd =>
      have hl : args.lookup "working_dir" = some (JVal.str wd) := by
        unfold argString at hs
        cases hx : args.lookup "working_dir" with
        | none => simp [hx] at hs
        | some x =>
          cases x <;> simp [hx] at hs
          rw [hs]
      simp [h wd hl]
  · intro h
    have h30 : timeoutSecondsOf T args = 30 := by
      simp [timeoutSecondsOf, (argFloat_eq_none_iff args "timeout_seconds").2 h]
    exact ⟨h30, by rw [h30]; exact timeoutDuration_thirty⟩

/-- Witness for C17: a command that is a number, not a string; and `ls` with the
working directory `/tmp` and no timeout, under the default flags. -/
theorem run_command_arguments_witness :
    run_command goRuntime { requireConfirm := true, autoApproveReads := true }
        (cannedShell "y\n" completedRun) [("command", JVal.num 7)] 0 =
      { out := { result := "", err := some "command must be a non-empty string" },
        world := 0, events := [] } ∧
    ((∃ pre,
        (run_command goRuntime { requireConfirm := true, autoApproveReads := true }
          (cannedShell "y\n" completedRun)
          [("command", JVal.str "ls"), ("working_dir", JVal.str "/tmp")] 0).events =
          pre ++ [CmdEvent.spawn "ls" "/tmp" (30 * second)] ∧
        ∀ c d t, CmdEvent.spawn c d t ∉ pre) ∧
      (run_command goRuntime { requireConfirm := true, autoApproveReads := true }
          (cannedShell "y\n" completedRun)
          [("command", JVal.str "ls"), ("working_dir", JVal.str "/tmp")] 0).world =
        ((cannedShell "y\n" completedRun).run "ls" "/tmp" (30 * second) 0).2) ∧
    workingDirOf [("command", JVal.str "ls"), ("working_dir", JVal.str "/tmp")] = "/tmp" ∧
    (timeoutSecondsOf goRuntime
        [("command", JVal.str "ls"), ("working_dir", JVal.str "/tmp")] = 30 ∧
      timeoutDuration (timeoutSecondsOf goRuntime
        [("command", JVal.str "ls"), ("working_dir", JVal.str "/tmp")]) = 30 * second) :=
  ⟨(run_command_arguments goRuntime { requireConfirm := true, autoApproveReads := true }
      (cannedShell "y\n" completedRun) [("command", JVal.num 7)] 0).1
      (Or.inr (Or.inl ⟨JVal.num 7, rfl, fun s hs => by cases hs⟩)),
   ((run_command_arguments goRuntime { requireConfirm := true, autoApproveReads := true }
      (cannedShell "y\n" completedRun)
      [("command", JVal.str "ls"), ("working_dir", JVal.str "/tmp")] 0).2.1 "ls" rfl
      (by decide)).2.2 0 (Or.inl ⟨by decide, rfl⟩),
   (run_command_arguments goRuntime { requireConfirm := true, autoApproveReads := true }
      (cannedShell "y\n" completedRun)
      [("command", JVal.str "ls"), ("working_dir", JVal.str "/tmp")] 0).2.2.1 "/tmp" rfl
      (by decide),
   (run_command_arguments goRuntime { requireConfirm := true, autoApproveReads := true }
      (cannedShell "y\n" completedRun)
      [("command", JVal.str "ls"), ("working_dir", JVal.str "/tmp")] 0).2.2.2.2
      (fun x hx => by cases hx)⟩

theorem sortEntries_timeoutPayload (command : String) (res : RunResult) :
    sortEntries (timeoutPayload command res) =
      [ ("command", PVal.str command), ("duration_ms", PVal.int res.durationMs),
        ("error", PVal.str "command timed out"), ("exit_code", PVal.int (-1)),
        ("stderr", PVal.str res.stderr), ("stdout", PVal.str res.stdout) ] := by
  rfl

theorem sortEntries_resultPayload (command workingDir : String) (res : RunResult)
    (c : Int) :
    sortEntries (resultPayload command workingDir res c) =
      [ ("command", PVal.str command), ("duration_ms", PVal.int res.durationMs),
        ("exit_code", PVal.int c),
        ("stderr", PVal.str res.stderr), ("stdout", PVal.str res.stdout),
        ("success", PVal.bool (c == 0)), ("working_dir", PVal.str workingDir) ] := by
  rfl

/-- The marshalled timeout payload differs from every marshalled ordinary payload for
the same command and run: after the common beginning the one goes on with the key
`error`, the other with the key `exit_code`. -/
theorem jsonMarshal_timeoutPayload_ne (command workingDir : String) (res : RunResult)
    (c : Int) :
    jsonMarshal (timeoutPayload command res) ≠
      jsonMarshal (resultPayload command workingDir res c) := by
  intro h
  have h2 := congrArg String.data h
  have e1 : (jsonString "error").data = ['"', 'e', 'r', 'r', 'o', 'r', '"'] := by decide
  have e2 : (jsonString "exit_code").data =
      ['"', 'e', 'x', 'i', 't', '_', 'c', 'o', 'd', 'e', '"'] := by decide
  simp only [jsonMarshal, sortEntries_timeoutPayload, sortEntries_resultPayload, List.map,
    String.intercalate, String.intercalate.go, String.data_append] at h2
  simp [e1, e2] at h2

theorem jsonMarshal_ne_empty (m : Payload) : jsonMarshal m ≠ "" := by
  intro h
  have h2 := congrArg String.data h
  simp [jsonMarshal, String.data_append] at h2

/-- C18: for a valid command whose subprocess the handler starts, (1) when the run
fails with an exit-status error (whose code is not 0), the handler returns no error and
the ordinary payload with that exit code, `success` false and no `error` field,
whether or not the deadline has been exceeded; (2) the handler returns the timeout
payload, the one with the field `error` = "command timed out", exactly when the run
fails with an error that is not an exit-status error and the deadline has been
exceeded. -/
theorem run_command_exit_status_first {W : Type} (T : GoRuntime) (policy : Policy) (sh : Shell W)
    (args : Args) (w w0 : W) (command : String)
    (hcmd : argString args "command" = some command) (hne : command ≠ "")
    (hstart : StartsAt T policy sh command w w0) :
    (∀ c, (sh.run command (workingDirOf args) (timeoutDuration (timeoutSecondsOf T args)) w0).1.err =
        RunErr.exitError c → c ≠ 0 →
      (run_command T policy sh args w).out =
          { result := jsonMarshal (resultPayload command (workingDirOf args)
              (sh.run command (workingDirOf args) (timeoutDuration (timeoutSecondsOf T args)) w0).1 c),
            err := none } ∧
        (resultPayload command (workingDirOf args)
          (sh.run command (workingDirOf args) (timeoutDuration (timeoutSecondsOf T args)) w0).1 c).lookup
            "exit_code" = some (PVal.int c) ∧
        (resultPayload command (workingDirOf args)
          (sh.run command (workingDirOf args) (timeoutDuration (timeoutSecondsOf T args)) w0).1 c).lookup
            "success" = some (PVal.bool false) ∧
        (resultPayload command (workingDirOf args)
          (sh.run command (workingDirOf args) (timeoutDuration (timeoutSecondsOf T args)) w0).1 c).lookup
            "error" = none) ∧
    ((run_command T policy sh args w).out =
        { result := jsonMarshal (timeoutPayload command
            (sh.run command (workingDirOf args) (timeoutDuration (timeoutSecondsOf T args)) w0).1),
          err := none } ↔
      ((∃ msg, (sh.run command (workingDirOf args) (timeoutDuration (timeoutSecondsOf T args)) w0).1.err =
          RunErr.other msg) ∧
        (sh.run command (workingDirOf args) (timeoutDuration (timeoutSecondsOf T args)) w0).1.deadlineExceeded =
          true)) ∧
    (timeoutPayload command
      (sh.run command (workingDirOf args) (timeoutDuration (timeoutSecondsOf T args)) w0).1).lookup "error" =
        some (PVal.str "command timed out") := by
  have hout := (run_command_started T policy sh args w w0 command hcmd hne hstart).1
  refine ⟨?_, ?_, rfl⟩
  · intro c herr hc0
    refine ⟨?_, rfl, ?_, rfl⟩
    · rw [hout]
      exact runSubprocess_completed sh command _ _ w0 c (by rw [herr]; rfl)
    · have hb : (c == 0) = false := by simp [hc0]
      simp [resultPayload, List.lookup, hb]
  · rw [hout]
    cases herr : (sh.run command (workingDirOf args) (timeoutDuration (timeoutSecondsOf T args)) w0).1.err with
    | nil =>
      rw [runSubprocess_completed sh command _ _ w0 0 (by rw [herr]; rfl)]
      constructor
      · intro h
        exact absurd (congrArg Outcome.result h).symm (jsonMarshal_timeoutPayload_ne _ _ _ _)
      · rintro ⟨⟨msg, hm⟩, _⟩
        cases hm
    | exitError code =>
      rw [runSubprocess_completed sh command _ _ w0 code (by rw [herr]; rfl)]
      constructor
      · intro h
        exact absurd (congrArg Outcome.result h).symm (jsonMarshal_timeoutPayload_ne _ _ _ _)
      · rintro ⟨⟨msg, hm⟩, _⟩
        cases hm
    | other msg =>
      cases hd : (sh.run command (workingDirOf args)
        (timeoutDuration (timeoutSecondsOf T args)) w0).1.deadlineExceeded with
      | true => simp [runSubprocess, herr, hd]
      | false =>
        simp only [runSubprocess, herr, hd]
        constructor
        · intro h
          exact absurd (congrArg Outcome.result h).symm (jsonMarshal_ne_empty _)
        · rintro ⟨_, hf⟩
          cases hf

/-- Witness for C18: `sleep 60` killed at the deadline, confirmation not required. -/
theorem run_command_exit_status_first_witness :
    StartsAt goRuntime { requireConfirm := false, autoApproveReads := true }
        (cannedShell "" killedRun) "sleep 60" 0 0 ∧
      killedRun.deadlineExceeded = true ∧
      (run_command goRuntime { requireConfirm := false, autoApproveReads := true }
          (cannedShell "" killedRun)
          [("command", JVal.str "sleep 60"), ("timeout_seconds", JVal.num 1)] 0).out =
        { result := jsonMarshal (resultPayload "sleep 60" "." killedRun (-1)),
          err := none } :=
  ⟨Or.inl ⟨by decide, rfl⟩, rfl,
   ((run_command_exit_status_first goRuntime { requireConfirm := false, autoApproveReads := true }
      (cannedShell "" killedRun)
      [("command", JVal.str "sleep 60"), ("timeout_seconds", JVal.num 1)] 0 0 "sleep 60"
      rfl (by decide) (Or.inl ⟨by decide, rfl⟩)).1 (-1) rfl (by decide)).1⟩

/-! ## Registration and dispatch -/

theorem lookup_append_of_none {β : Type} (a b : List (String × β)) (k : String)
    (h : a.lookup k = none) : (a ++ b).lookup k = b.lookup k := by
  induction a with
  | nil => rfl
  | cons kv rest ih =>
    by_cases hk : k = kv.1
    · have hb : (k == kv.1) = true := by simpa using hk
      rw [List.lookup, hb] at h
      cases h
    · have hb : (k == kv.1) = false := by simpa using hk
      rw [List.lookup, hb] at h
      rw [List.cons_append, List.lookup, hb]
      exact ih h

theorem lookup_append_of_some {β : Type} (a b : List (String × β)) (k : String) (v : β)
    (h : a.lookup k = some v) : (a ++ b).lookup k = some v := by
  induction a with
  | nil => cases h
  | cons kv rest ih =>
    by_cases hk : k = kv.1
    · have hb : (k == kv.1) = true := by simpa using hk
      rw [List.lookup, hb] at h
      rw [List.cons_append, List.lookup, hb]
      exact h
    · have hb : (k == kv.1) = false := by simpa using hk
      rw [List.lookup, hb] at h
      rw [List.cons_append, List.lookup, hb]
      exact ih h

theorem lookup_filter_ne {β : Type} (l : List (String × β)) (k n : String) (hne : n ≠ k) :
    (l.filter (fun kv => kv.1 != n)).lookup k = l.lookup k := by
  induction l with
  | nil => rfl
  | cons kv rest ih =>
    by_cases hk : k = kv.1
    · have hb : (k == kv.1) = true := by simpa using hk
      have hf : (kv.1 != n) = true := by
        simpa using fun heq : kv.1 = n => hne (by rw [← heq, hk])
      rw [List.filter_cons, if_pos hf, List.lookup, hb, List.lookup, hb]
    · have hb : (k == kv.1) = false := by simpa using hk
      rw [List.lookup, hb]
      by_cases hf : (kv.1 != n) = true
      · rw [List.filter_cons, if_pos hf, List.lookup, hb]
        exact ih
      · rw [List.filter_cons, if_neg hf]
        exact ih

theorem lookup_filter_self {β : Type} (l : List (String × β)) (k : String) :
    (l.filter (fun kv => kv.1 != k)).lookup k = none := by
  apply lookup_eq_none_of_keys
  intro kv hkv
  have := (List.mem_filter.1 hkv).2
  simpa using this

theorem lookup_register_self {W : Type} (r : ToolRegistry W) (x : Registration W) :
    (r.Register x.name x.description x.parameters x.handler).handlers.lookup x.name =
      some x.handler := by
  show (r.handlers.filter (fun kv => kv.1 != x.name) ++ [(x.name, x.handler)]).lookup x.name
    = some x.handler
  rw [lookup_append_of_none _ _ _ (lookup_filter_self _ _)]
  simp [List.lookup]

theorem lookup_register_other {W : Type} (r : ToolRegistry W) (y : Registration W)
    (name : String) (hne : y.name ≠ name) :
    (r.Register y.name y.description y.parameters y.handler).handlers.lookup name =
      r.handlers.lookup name := by
  show (r.handlers.filter (fun kv => kv.1 != y.name) ++ [(y.name, y.handler)]).lookup name
    = r.handlers.lookup name
  cases h : r.handlers.lookup name with
  | none =>
    have hf : (r.handlers.filter (fun kv => kv.1 != y.name)).lookup name = none := by
      rw [lookup_filter_ne _ _ _ hne, h]
    rw [lookup_append_of_none _ _ _ hf]
    have hb : (name == y.name) = false := by
      simpa using fun heq : name = y.name => hne heq.symm
    simp [List.lookup, hb]
  | some v =>
    have hf : (r.handlers.filter (fun kv => kv.1 != y.name)).lookup name = some v := by
      rw [lookup_filter_ne _ _ _ hne, h]
    exact lookup_append_of_some _ _ _ _ hf

theorem lookup_registerAll_other {W : Type} (regs : List (Registration W))
    (r : ToolRegistry W) (name : String) (hne : ∀ y ∈ regs, y.name ≠ name) :
    (registerAll r regs).handlers.lookup name = r.handlers.lookup name := by
  induction regs generalizing r with
  | nil => rfl
  | cons y rest ih =>
    have h1 := ih (r.Register y.name y.description y.parameters y.handler)
      (fun z hz => hne z (List.mem_cons_of_mem y hz))
    have h2 := lookup_register_other r y name (hne y (List.mem_cons_self y rest))
    exact h1.trans h2

theorem registerAll_append {W : Type} (r : ToolRegistry W) (a b : List (Registration W)) :
    registerAll r (a ++ b) = registerAll (registerAll r a) b := by
  simp [registerAll, List.foldl_append]

/-- C12: after any sequence of `Register` calls on any registry, `Execute` under a
registered name returns exactly what the handler of the last registration under that
name returns for the arguments, in result, error and effect on the world, and invokes
that handler once; earlier registrations under the same name are replaced. -/
theorem Execute_registered {W : Type} (r : ToolRegistry W)
    (pre post : List (Registration W)) (x : Registration W) (args : Args) (w : W)
    (hpost : ∀ y ∈ post, y.name ≠ x.name) :
    (registerAll r (pre ++ x :: post)).Execute x.name args w =
      { out := (x.handler args w).1, world := (x.handler args w).2,
        invoked := [(x.name, args)] } := by
  have hl : (registerAll r (pre ++ x :: post)).handlers.lookup x.name = some x.handler := by
    rw [registerAll_append]
    show (registerAll ((registerAll r pre).Register x.name x.description x.parameters
      x.handler) post).handlers.lookup x.name = some x.handler
    rw [lookup_registerAll_other post _ x.name hpost]
    exact lookup_register_self _ x
  simp [ToolRegistry.Execute, hl]

/-- Witness for C12: `bump` registered twice; the second handler answers. -/
theorem Execute_registered_witness :
    (registerAll (NewToolRegistry Nat) repeatedRegistrations).Execute "bump" [] 0 =
      { out := { result := "first", err := none }, world := 1,
        invoked := [("bump", [])] } :=
  Execute_registered (NewToolRegistry Nat)
    [{ name := "bump", description := "first", parameters := [], handler := failing }] []
    { name := "bump", description := "second", parameters := [], handler := bump } [] 0
    (by simp)

theorem toolNames_register {W : Type} (r : ToolRegistry W) (x : Registration W) :
    toolNames (r.Register x.name x.description x.parameters x.handler) =
      toolNames r ++ [x.name] := by
  simp [toolNames, ToolRegistry.GetTools, ToolRegistry.Register]

theorem toolNames_registerAll {W : Type} (regs : List (Registration W))
    (r : ToolRegistry W) :
    toolNames (registerAll r regs) = toolNames r ++ regs.map (fun x => x.name) := by
  induction regs generalizing r with
  | nil => simp [registerAll]
  | cons x rest ih =>
    have h := ih (r.Register x.name x.description x.parameters x.handler)
    rw [toolNames_register] at h
    simpa [registerAll] using h

theorem keys_register_new {W : Type} (r : ToolRegistry W) (x : Registration W)
    (hnew : x.name ∉ r.handlers.map Prod.fst) :
    (r.Register x.name x.description x.parameters x.handler).handlers.map Prod.fst =
      r.handlers.map Prod.fst ++ [x.name] := by
  have hf : r.handlers.filter (fun kv => kv.1 != x.name) = r.handlers := by
    apply List.filter_eq_self.2
    intro kv hkv
    have hne : kv.1 ≠ x.name := fun heq => hnew (heq ▸ List.mem_map_of_mem Prod.fst hkv)
    simpa using hne
  simp [ToolRegistry.Register, hf]

theorem keys_registerAll_distinct {W : Type} (regs : List (Registration W))
    (r : ToolRegistry W)
    (h : (r.handlers.map Prod.fst ++ regs.map (fun x => x.name)).Nodup) :
    (registerAll r regs).handlers.map Prod.fst =
      r.handlers.map Prod.fst ++ regs.map (fun x => x.name) := by
  induction regs generalizing r with
  | nil => simp [registerAll]
  | cons x rest ih =>
    have hnew : x.name ∉ r.handlers.map Prod.fst := by
      intro hmem
      have := (List.nodup_append.1 h).2.2
      exact this hmem (by simp)
    have hk := keys_register_new r x hnew
    have h2 : ((r.Register x.name x.description x.parameters x.handler).handlers.map Prod.fst
        ++ rest.map (fun x => x.name)).Nodup := by
      rw [hk]
      simpa using h
    have := ih (r.Register x.name x.description x.parameters x.handler) h2
    rw [hk] at this
    simpa [registerAll] using this

/-- C13, counterexample: after registering `bump` twice, `GetTools` advertises two
schemas that share the name `bump`, while the handler map has a single key. -/
theorem GetTools_repeated_name :
    toolNames (registerAll (NewToolRegistry Nat) repeatedRegistrations) = ["bump", "bump"] ∧
      ¬ (toolNames (registerAll (NewToolRegistry Nat) repeatedRegistrations)).Nodup ∧
      (registerAll (NewToolRegistry Nat) repeatedRegistrations).GetTools.length = 2 ∧
      (registerAll (NewToolRegistry Nat) repeatedRegistrations).handlers.length = 1 ∧
      (registerAll (NewToolRegistry Nat) repeatedRegistrations).GetTools.length ≠
        (registerAll (NewToolRegistry Nat) repeatedRegistrations).handlers.length := by
  refine ⟨rfl, ?_, rfl, rfl, ?_⟩
  · have h : toolNames (registerAll (NewToolRegistry Nat) repeatedRegistrations) =
        ["bump", "bump"] := rfl
    rw [h]
    decide
  · have h1 : (registerAll (NewToolRegistry Nat) repeatedRegistrations).GetTools.length = 2 :=
      rfl
    have h2 : (registerAll (NewToolRegistry Nat) repeatedRegistrations).handlers.length = 1 :=
      rfl
    rw [h1, h2]
    decide

theorem GetTools_register {W : Type} (r : ToolRegistry W) (x : Registration W) :
    (r.Register x.name x.description x.parameters x.handler).GetTools =
      r.GetTools ++ [toolOf x] := rfl

theorem GetTools_registerAll {W : Type} (regs : List (Registration W))
    (r : ToolRegistry W) :
    (registerAll r regs).GetTools = r.GetTools ++ regs.map toolOf := by
  induction regs generalizing r with
  | nil => simp [registerAll]
  | cons x rest ih =>
    have h := ih (r.Register x.name x.description x.parameters x.handler)
    rw [GetTools_register] at h
    simpa [registerAll] using h

theorem keys_register {W : Type} (r : ToolRegistry W) (x : Registration W) :
    (r.Register x.name x.description x.parameters x.handler).handlers.map Prod.fst =
      (r.handlers.map Prod.fst).filter (fun k => k != x.name) ++ [x.name] := by
  simp [ToolRegistry.Register, List.filter_map, Function.comp_def]

theorem keys_register_nodup {W : Type} (r : ToolRegistry W) (x : Registration W)
    (h : (r.handlers.map Prod.fst).Nodup) :
    ((r.Register x.name x.description x.parameters x.handler).handlers.map Prod.fst).Nodup := by
  rw [keys_register]
  refine List.Nodup.append (h.filter _) (List.nodup_singleton _) ?_
  intro k hk hx
  rw [List.mem_singleton] at hx
  have := (List.mem_filter.1 hk).2
  simp [hx] at this

theorem mem_keys_register {W : Type} (r : ToolRegistry W) (x : Registration W)
    (n : String) :
    n ∈ (r.Register x.name x.description x.parameters x.handler).handlers.map Prod.fst ↔
      n ∈ r.handlers.map Prod.fst ∨ n = x.name := by
  rw [keys_register, List.mem_append, List.mem_filter, List.mem_singleton]
  by_cases hn : n = x.name
  · exact ⟨fun _ => Or.inr hn, fun _ => Or.inr hn⟩
  · have hb : (n != x.name) = true := by simpa using hn
    constructor
    · rintro (⟨hm, _⟩ | he)
      · exact Or.inl hm
      · exact Or.inr he
    · rintro (hm | he)
      · exact Or.inl ⟨hm, hb⟩
      · exact Or.inr he

theorem keys_registerAll {W : Type} (regs : List (Registration W)) (r : ToolRegistry W)
    (h : (r.handlers.map Prod.fst).Nodup) :
    ((registerAll r regs).handlers.map Prod.fst).Nodup ∧
      ∀ n, n ∈ (registerAll r regs).handlers.map Prod.fst ↔
        n ∈ r.handlers.map Prod.fst ∨ n ∈ regs.map (fun x => x.name) := by
  induction regs generalizing r with
  | nil =>
    refine ⟨h, fun n => ⟨fun hm => Or.inl hm, ?_⟩⟩
    rintro (hm | hm)
    · exact hm
    · exact absurd hm (List.not_mem_nil n)
  | cons x rest ih =>
    obtain ⟨h1, h2⟩ := ih (r.Register x.name x.description x.parameters x.handler)
      (keys_register_nodup r x h)
    refine ⟨h1, fun n => ?_⟩
    have h3 := h2 n
    rw [mem_keys_register] at h3
    have h4 : registerAll r (x :: rest) =
        registerAll (r.Register x.name x.description x.parameters x.handler) rest := rfl
    rw [h4, h3, List.map_cons, List.mem_cons]
    tauto

theorem dedup_length_eq_iff (l : List String) : l.dedup.length = l.length ↔ l.Nodup := by
  constructor
  · intro h
    have := (List.dedup_sublist l).eq_of_length h
    exact List.dedup_eq_self.1 this
  · intro h
    rw [List.dedup_eq_self.2 h]

/-- C13 as amended: after any sequence of `Register` calls on a new registry,
`GetTools` returns exactly one schema per call, in call order, built from the name,
description and parameters of the call; the handler map has exactly one key for each
distinct name registered, so a call that repeats a name adds a schema and no key.
Hence no two advertised schemas share a name exactly when the names of the calls are
pairwise different, and the list has as many entries as the handler map has keys
exactly when the names of the calls are pairwise different. -/
theorem GetTools_one_schema_per_call {W : Type} (regs : List (Registration W)) :
    (registerAll (NewToolRegistry W) regs).GetTools = regs.map toolOf ∧
    ((registerAll (NewToolRegistry W) regs).handlers.map Prod.fst).Nodup ∧
    (∀ n, n ∈ (registerAll (NewToolRegistry W) regs).handlers.map Prod.fst ↔
      n ∈ regs.map (fun x => x.name)) ∧
    (registerAll (NewToolRegistry W) regs).handlers.length =
      (regs.map (fun x => x.name)).dedup.length ∧
    ((toolNames (registerAll (NewToolRegistry W) regs)).Nodup ↔
      (regs.map (fun x => x.name)).Nodup) ∧
    ((registerAll (NewToolRegistry W) regs).GetTools.length =
        (registerAll (NewToolRegistry W) regs).handlers.length ↔
      (regs.map (fun x => x.name)).Nodup) := by
  have hg : (registerAll (NewToolRegistry W) regs).GetTools = regs.map toolOf := by
    rw [GetTools_registerAll]
    simp [ToolRegistry.GetTools, NewToolRegistry]
  obtain ⟨hnd, hmem⟩ := keys_registerAll regs (NewToolRegistry W)
    (by simp [NewToolRegistry])
  have hmem2 : ∀ n, n ∈ (registerAll (NewToolRegistry W) regs).handlers.map Prod.fst ↔
      n ∈ regs.map (fun x => x.name) := by
    intro n
    rw [hmem n]
    simp [NewToolRegistry]
  have hlen : (registerAll (NewToolRegistry W) regs).handlers.length =
      (regs.map (fun x => x.name)).dedup.length := by
    have hperm : List.Perm ((registerAll (NewToolRegistry W) regs).handlers.map Prod.fst)
        (regs.map (fun x => x.name)).dedup :=
      (List.perm_ext_iff_of_nodup hnd (List.nodup_dedup _)).2
        (fun n => by rw [hmem2 n, List.mem_dedup])
    simpa using hperm.length_eq
  have hnames : toolNames (registerAll (NewToolRegistry W) regs) =
      regs.map (fun x => x.name) := by
    simp [toolNames, hg, toolOf, Function.comp_def]
  refine ⟨hg, hnd, hmem2, hlen, by rw [hnames], ?_⟩
  rw [hlen, hg, List.length_map, ← dedup_length_eq_iff, List.length_map]
  exact eq_comm

/-- Witness for C13 as amended: the two registrations of the scenario, with different
names. -/
theorem GetTools_one_schema_per_call_witness :
    (toolNames demoRegistry).Nodup ∧
      demoRegistry.GetTools.length = demoRegistry.handlers.length :=
  ⟨(GetTools_one_schema_per_call demoRegistrations).2.2.2.2.1.2 (by decide),
   (GetTools_one_schema_per_call demoRegistrations).2.2.2.2.2.2 (by decide)⟩

/-! ## The conversation sent to the transport -/

theorem toolMessages_eq_filterMap {W : Type} (registry : ToolRegistry W)
    (calls : List ToolCall) (w : W) :
    toolMessages registry calls w = (toolEvents registry calls w).filterMap toolMessageOf := by
  induction calls generalizing w with
  | nil => rfl
  | cons tc rest ih => simp [toolMessages, toolEvents, toolMessageOf, ih]

theorem runLoop_convShape {W : Type} (client : Transport W) (model : String)
    (registry : ToolRegistry W) (dbg : Bool) (n : Nat) (s : Conv W) :
    ConvShape s.messages (runLoop client model registry dbg n s).trace := by
  induction n generalizing s with
  | zero => exact ConvShape.done _
  | succ n ih =>
    rcases h : client (chatRequest model registry dbg s.messages) s.world with ⟨e | resp, w1⟩
    · rw [runLoop, iteration_error client model registry dbg s e w1 h]
      exact ConvShape.last _ _ _ rfl
    · by_cases hc : 0 < resp.message.toolCalls.length
      · rw [runLoop, iteration_calls client model registry dbg s resp w1 h hc]
        refine ConvShape.turn _ _ resp _ _ rfl (toolEvents_executes registry _ w1) ?_
        have := ih (Conv.mk
          (s.messages ++ [resp.message] ++ toolMessages registry resp.message.toolCalls w1)
          (worldAfterCalls registry resp.message.toolCalls w1))
        simp only [toolMessages_eq_filterMap] at this
        simpa only [toolMessages_eq_filterMap] using this
      · have hc0 : resp.message.toolCalls.length = 0 := by omega
        rw [runLoop, iteration_final client model registry dbg s resp w1 h hc0]
        exact ConvShape.last _ _ _ rfl

theorem ConvShape.head_messages {msgs : List Message} {tr rest : List Event}
    {req : ChatRequest} {resp : Except String ChatResponse} (h : ConvShape msgs tr)
    (heq : tr = Event.chat req resp :: rest) : req.messages = msgs := by
  cases h with
  | done => cases heq
  | last ms rq rs hreq =>
    simp at heq
    rw [← heq.1.1]
    exact hreq
  | turn ms rq rs evs tr1 hreq hev hrest =>
    simp at heq
    rw [← heq.1.1]
    exact hreq

theorem ConvShape.starts_with_chat {msgs : List Message} {ev : Event} {tr : List Event}
    (h : ConvShape msgs (ev :: tr)) : ∃ req resp, ev = Event.chat req resp := by
  cases h with
  | last ms rq rs hreq => exact ⟨_, _, rfl⟩
  | turn ms rq rs evs tr1 hreq hev hrest => exact ⟨_, _, rfl⟩

theorem filterMap_toolMessageOf_executes (evs : List Event) (calls : List ToolCall)
    (h : List.Forall₂ Event.Executes evs calls) :
    (evs.filterMap toolMessageOf).length = calls.length ∧
      ∀ m ∈ evs.filterMap toolMessageOf, m.role = "tool" := by
  induction h with
  | nil => simp
  | cons hx _ ih =>
    obtain ⟨o, rfl⟩ := hx
    refine ⟨by simp [toolMessageOf, ih.1], ?_⟩
    intro m hm
    simp [toolMessageOf] at hm
    rcases hm with rfl | hm
    · rfl
    · exact ih.2 m (by simpa using hm)

/-- Two successive transport calls of a run: the later request carries the earlier
request's messages, the earlier response's message, and the tool messages of the
`Execute` events in between. -/
theorem ConvShape.successive {msgs : List Message} {tr : List Event} (h : ConvShape msgs tr)
    (pre evs post : List Event) (req1 req2 : ChatRequest)
    (resp1 resp2 : Except String ChatResponse)
    (heq : tr = pre ++ Event.chat req1 resp1 :: (evs ++ Event.chat req2 resp2 :: post))
    (hevs : ∀ e ∈ evs, ∀ rq rs, e ≠ Event.chat rq rs) :
    ∃ r1, resp1 = Except.ok r1 ∧
      List.Forall₂ Event.Executes evs r1.message.toolCalls ∧
      req2.messages = req1.messages ++ [r1.message] ++ evs.filterMap toolMessageOf := by
  induction h generalizing pre with
  | done => simp at heq
  | last ms rq rs hreq =>
    have := congrArg List.length heq
    simp at this
    omega
  | turn ms rq rs evs0 tr1 hreq hev hrest ih =>
    cases pre with
    | nil =>
      simp at heq
      obtain ⟨⟨rfl, rfl⟩, h2⟩ := heq
      obtain ⟨rest, h3, h4⟩ := split_after_executes evs0 _ hev evs post tr1 req2 resp2 h2.symm
      cases rest with
      | nil =>
        simp at h3 h4
        subst h3
        exact ⟨rs, rfl, hev, by rw [hrest.head_messages h4, hreq]⟩
      | cons e rest1 =>
        rw [h4] at hrest
        obtain ⟨q, p, hq⟩ := hrest.starts_with_chat
        exact absurd hq (hevs e (by rw [h3]; simp) q p)
    | cons p pre1 =>
      simp at heq
      obtain ⟨rest, _, h4⟩ := split_after_executes evs0 _ hev pre1 _ tr1 req1 resp1 heq.2.symm
      exact ih rest h4

/-- C14: the first request of a run carries exactly the system message followed by
the user message with the given content; and for two successive transport calls of
a run, the later request's messages are the earlier request's messages, followed by
the earlier response's message as received, followed by the tool messages of that
turn, one per tool call of that message and all with role "tool". -/
theorem runAgentLoop_conversation {W : Type} (client : Transport W) (model : String)
    (registry : ToolRegistry W) (dbg : Bool) (userMessage : String) (w : W) :
    (∀ req resp rest,
      (runAgentLoop client model registry dbg userMessage w).trace =
        Event.chat req resp :: rest →
      req.messages =
        [ { role := "system",
            content := "You are a helpful assistant with access to tools. Use them when needed." },
          { role := "user", content := userMessage } ]) ∧
    (∀ pre evs post req1 req2 resp1 resp2,
      (runAgentLoop client model registry dbg userMessage w).trace =
        pre ++ Event.chat req1 resp1 :: (evs ++ Event.chat req2 resp2 :: post) →
      (∀ e ∈ evs, ∀ rq rs, e ≠ Event.chat rq rs) →
      ∃ r1, resp1 = Except.ok r1 ∧
        List.Forall₂ Event.Executes evs r1.message.toolCalls ∧
        req2.messages = req1.messages ++ [r1.message] ++ evs.filterMap toolMessageOf ∧
        (evs.filterMap toolMessageOf).length = r1.message.toolCalls.length ∧
        ∀ m ∈ evs.filterMap toolMessageOf, m.role = "tool") := by
  have hshape := runLoop_convShape client model registry dbg maxIterations
    { messages := initialMessages userMessage, world := w }
  refine ⟨?_, ?_⟩
  · intro req resp rest htr
    exact hshape.head_messages htr
  · intro pre evs post req1 req2 resp1 resp2 htr hevs
    obtain ⟨r1, h1, h2, h3⟩ := hshape.successive pre evs post req1 req2 resp1 resp2 htr hevs
    exact ⟨r1, h1, h2, h3, filterMap_toolMessageOf_executes evs _ h2⟩

/-- Witness for C14: a first turn with two tool calls; the second request carries
system, user, the assistant message with its two calls, tool, tool. -/
theorem runAgentLoop_conversation_witness :
    ∃ r1, (Except.ok twoCallResponse : Except String ChatResponse) = Except.ok r1 ∧
      List.Forall₂ Event.Executes
        (((runAgentLoop twoCallClient "m" demoRegistry false "2+2 and weather" 0).trace.drop 1).take 2)
        r1.message.toolCalls ∧
      (chatRequest "m" demoRegistry false
          [ { role := "system",
              content := "You are a helpful assistant with access to tools. Use them when needed." },
            { role := "user", content := "2+2 and weather" },
            twoCallResponse.message,
            { role := "tool", content := "first" },
            { role := "tool", content := "later" } ]).messages =
        (chatRequest "m" demoRegistry false (initialMessages "2+2 and weather")).messages ++
          [r1.message] ++
          (((runAgentLoop twoCallClient "m" demoRegistry false "2+2 and weather" 0).trace.drop
            1).take 2).filterMap toolMessageOf ∧
      ((((runAgentLoop twoCallClient "m" demoRegistry false "2+2 and weather" 0).trace.drop
          1).take 2).filterMap toolMessageOf).length = r1.message.toolCalls.length ∧
      ∀ m ∈ (((runAgentLoop twoCallClient "m" demoRegistry false "2+2 and weather" 0).trace.drop
          1).take 2).filterMap toolMessageOf, m.role = "tool" :=
  (runAgentLoop_conversation twoCallClient "m" demoRegistry false "2+2 and weather" 0).2 []
    (((runAgentLoop twoCallClient "m" demoRegistry false "2+2 and weather" 0).trace.drop 1).take 2)
    []
    (chatRequest "m" demoRegistry false (initialMessages "2+2 and weather"))
    (chatRequest "m" demoRegistry false
      [ { role := "system",
          content := "You are a helpful assistant with access to tools. Use them when needed." },
        { role := "user", content := "2+2 and weather" },
        twoCallResponse.message,
        { role := "tool", content := "first" },
        { role := "tool", content := "later" } ])
    (Except.ok twoCallResponse) (Except.ok finalResponse) rfl
    (by
      intro e he rq rs heq
      have hev : ((runAgentLoop twoCallClient "m" demoRegistry false "2+2 and weather"
          0).trace.drop 1).take 2 =
          [Event.execute "bump" [("a", JVal.num 2)] { result := "first", err := none },
           Event.execute "bump" [("city", JVal.str "X")] { result := "later", err := none }] :=
        rfl
      rw [hev, heq] at he
      simp at he)

/-! ## Error payloads of the agent loop -/

/-- C15, the code at the failing input: the model asks for the tool `a"b`, which is
not registered.  `Execute` fails with the text `unknown tool: a"b`, and the tool
message appended by the loop has that text pasted between quotes without escaping;
the content is not a JSON object with the single field `error`.  A text with a
backslash is read back as another text.  (A text without such characters, like
`boom`, is read back as it is.) -/
theorem toolContent_unescaped :
    (demoRegistry.Execute "a\"b" [] 0).out.err = some "unknown tool: a\"b" ∧
      (runAgentLoop quoteClient "m" demoRegistry false "hi" 0).messages.map
          (fun m => (m.role, m.content)) =
        [ ("system", "You are a helpful assistant with access to tools. Use them when needed."),
          ("user", "hi"), ("assistant", ""),
          ("tool", "\x7b\"error\": \"unknown tool: a\"b\"\x7d") ] ∧
      decodeErrorPayload (toolContent (demoRegistry.Execute "a\"b" [] 0).out) = none ∧
      decodeErrorPayload (toolContent { result := "", err := some "C:\\new" }) =
        some "C:\new" ∧
      decodeErrorPayload (toolContent { result := "", err := some "C:\\new" }) ≠
        some "C:\\new" ∧
      decodeErrorPayload (toolContent { result := "", err := some "boom" }) = some "boom" := by
  refine ⟨rfl, ?_, ?_, ?_, ?_, ?_⟩ <;> decide

/-! ## Classification of commands -/

theorem isSpace_toLower (c : Char) : isSpace c.toLower = isSpace c := by
  unfold Char.toLower
  by_cases h : c.toNat ≥ 65 ∧ c.toNat ≤ 90
  · simp only [h, and_self, if_true]
    obtain ⟨h1, h2⟩ := h
    have hc : c = Char.ofNat c.toNat := (Char.ofNat_toNat c).symm
    generalize c.toNat = n at h1 h2 hc
    subst hc
    interval_cases n <;> decide
  · simp only [h, if_false]

theorem isSpace_toLowerRune (T : GoRuntime) (c : Char) :
    isSpace (toLowerRune T c) = isSpace c := by
  unfold toLowerRune
  by_cases h : c.toNat ≤ 0x7F
  · rw [if_pos h]
    exact isSpace_toLower c
  · rw [if_neg h]
    exact T.lowerCase_isSpace c

theorem dropWhile_isSpace_map_toLower (T : GoRuntime) (l : List Char) :
    (l.map (toLowerRune T)).dropWhile isSpace =
      (l.dropWhile isSpace).map (toLowerRune T) := by
  rw [List.dropWhile_map]
  have : (isSpace ∘ toLowerRune T) = isSpace := funext (isSpace_toLowerRune T)
  rw [this]

/-- On a text within ASCII `strings.ToLower` does not consult the case table. -/
theorem toLower_ascii (T U : GoRuntime) (s : String)
    (h : s.data.all (fun c => decide (c.toNat ≤ 0x7F)) = true) : toLower T s = toLower U s := by
  unfold toLower
  congr 1
  apply List.map_congr_left
  intro c hc
  have hle : c.toNat ≤ 0x7F := by
    have := List.all_eq_true.1 h c hc
    simpa using this
  simp [toLowerRune, hle]

theorem isReadOnlyCommand_ascii (T U : GoRuntime) (s : String)
    (h : s.data.all (fun c => decide (c.toNat ≤ 0x7F)) = true) :
    isReadOnlyCommand T s = isReadOnlyCommand U s := by
  unfold isReadOnlyCommand
  rw [toLower_ascii T U s h]

/-- Lower-casing and trimming can be done in either order. -/
theorem trimSpace_toLower (T : GoRuntime) (s : String) :
    trimSpace (toLower T s) = toLower T (trimSpace s) := by
  simp only [trimSpace, toLower]
  rw [dropWhile_isSpace_map_toLower, ← List.map_reverse, dropWhile_isSpace_map_toLower,
    ← List.map_reverse]

theorem containsChars_iff (sub l : List Char) : containsChars sub l = true ↔ sub <:+: l := by
  induction l with
  | nil =>
    rw [containsChars, List.isPrefixOf_iff_prefix, List.prefix_nil, List.infix_nil]
  | cons c rest ih =>
    rw [containsChars, Bool.or_eq_true, List.isPrefixOf_iff_prefix, ih, List.infix_cons_iff]

theorem string_eq_iff_data (a b : String) : a = b ↔ a.data = b.data :=
  ⟨fun h => by rw [h], fun h => String.ext h⟩

theorem isReadOnlyCommand_eq_or (T : GoRuntime) (c : String) :
    isReadOnlyCommand T c =
      (safeCommands.any (fun safe =>
          hasPrefix (trimSpace (toLower T c)) (safe ++ " ") || trimSpace (toLower T c) == safe) ||
        readOnlyPatterns.any (fun pattern => contains (trimSpace (toLower T c)) pattern)) := by
  have hdef : ∀ a b : Bool,
      (if a = true then true else if b = true then true else false) = (a || b) := by decide
  exact hdef _ _

/-- The code of `isReadOnlyCommand` in terms of prefixes and occurrences. -/
theorem isReadOnlyCommand_eq_true_iff (T : GoRuntime) (c : String) :
    isReadOnlyCommand T c = true ↔
      (∃ safe ∈ safeCommands,
        (safe ++ " ").data <+: (trimSpace (toLower T c)).data ∨ trimSpace (toLower T c) = safe) ∨
      (∃ p ∈ readOnlyPatterns, p.data <:+: (trimSpace (toLower T c)).data) := by
  rw [isReadOnlyCommand_eq_or, Bool.or_eq_true, List.any_eq_true, List.any_eq_true]
  constructor
  · rintro (⟨safe, hmem, hs⟩ | ⟨p, hmem, hp⟩)
    · left
      refine ⟨safe, hmem, ?_⟩
      rw [Bool.or_eq_true] at hs
      rcases hs with hp | he
      · exact Or.inl (List.isPrefixOf_iff_prefix.1 hp)
      · exact Or.inr (eq_of_beq he)
    · exact Or.inr ⟨p, hmem, (containsChars_iff _ _).1 hp⟩
  · rintro (⟨safe, hmem, hs⟩ | ⟨p, hmem, hp⟩)
    · left
      refine ⟨safe, hmem, ?_⟩
      rw [Bool.or_eq_true]
      rcases hs with hp | he
      · exact Or.inl (List.isPrefixOf_iff_prefix.2 hp)
      · exact Or.inr (by rw [he]; exact beq_self_eq_true safe)
    · exact Or.inr ⟨p, hmem, (containsChars_iff _ _).2 hp⟩

/-- C16: with `c'` the command trimmed of surrounding white space and lower-cased,
`isReadOnlyCommand T c` is true exactly when `c'` is one of the safe commands, or begins
with a safe command followed by a space, or contains one of "--help", "--version",
"-h", "-v".  `ls`, `LS -la`, `  git status  ` and `make --help` are read-only;
`lsblk` and `rm x` are not. -/
theorem isReadOnlyCommand_allow_list (T : GoRuntime) (c : String) :
    (isReadOnlyCommand T c = true ↔
      (∃ safe ∈ safeCommands, normalizedCommand T c = safe) ∨
      (∃ safe ∈ safeCommands, (safe ++ " ").data <+: (normalizedCommand T c).data) ∨
      (∃ p ∈ ["--help", "--version", "-h", "-v"],
        p.data <:+: (normalizedCommand T c).data)) ∧
    isReadOnlyCommand T "ls" = true ∧
    isReadOnlyCommand T "LS -la" = true ∧
    isReadOnlyCommand T "  git status  " = true ∧
    isReadOnlyCommand T "make --help" = true ∧
    isReadOnlyCommand T "lsblk" = false ∧
    isReadOnlyCommand T "rm x" = false := by
  refine ⟨?_,
    (isReadOnlyCommand_ascii T goRuntime "ls" (by decide)).trans (by decide),
    (isReadOnlyCommand_ascii T goRuntime "LS -la" (by decide)).trans (by decide),
    (isReadOnlyCommand_ascii T goRuntime "  git status  " (by decide)).trans (by decide),
    (isReadOnlyCommand_ascii T goRuntime "make --help" (by decide)).trans (by decide),
    (isReadOnlyCommand_ascii T goRuntime "lsblk" (by decide)).trans (by decide),
    (isReadOnlyCommand_ascii T goRuntime "rm x" (by decide)).trans (by decide)⟩
  rw [isReadOnlyCommand_eq_true_iff, trimSpace_toLower]
  show _ ↔ (∃ safe ∈ safeCommands, toLower T (trimSpace c) = safe) ∨
      (∃ safe ∈ safeCommands, (safe ++ " ").data <+: (toLower T (trimSpace c)).data) ∨
      (∃ p ∈ readOnlyPatterns, p.data <:+: (toLower T (trimSpace c)).data)
  constructor
  · rintro (⟨safe, hmem, hp | he⟩ | h)
    · exact Or.inr (Or.inl ⟨safe, hmem, hp⟩)
    · exact Or.inl ⟨safe, hmem, he⟩
    · exact Or.inr (Or.inr h)
  · rintro (⟨safe, hmem, he⟩ | ⟨safe, hmem, hp⟩ | h)
    · exact Or.inl ⟨safe, hmem, Or.inr he⟩
    · exact Or.inl ⟨safe, hmem, Or.inl hp⟩
    · exact Or.inr h

theorem infix_dropWhile_isSpace (p l : List Char) (c : Char) (rest : List Char)
    (hp : p = c :: rest) (hc : isSpace c = false) (h : p <:+: l) :
    p <:+: l.dropWhile isSpace := by
  obtain ⟨x, y, rfl⟩ := h
  induction x with
  | nil =>
    subst hp
    simp only [List.nil_append, List.cons_append, List.dropWhile_cons, hc]
    exact ⟨[], y, by simp⟩
  | cons d x1 ih =>
    simp only [List.cons_append, List.append_assoc, List.dropWhile_cons]
    by_cases hd : isSpace d = true
    · simp only [hd, if_true]
      simpa using ih
    · simp only [hd]
      exact ⟨d :: x1, y, by simp⟩

/-- A text without white space that occurs in a command still occurs in it after
`strings.TrimSpace`. -/
theorem infix_trimSpace (p : String) (s : String) (hne : p.data ≠ [])
    (hns : ∀ c ∈ p.data, isSpace c = false) (h : p.data <:+: s.data) :
    p.data <:+: (trimSpace s).data := by
  unfold trimSpace
  show p.data <:+: ((s.data.dropWhile isSpace).reverse.dropWhile isSpace).reverse
  have h1 : p.data <:+: s.data.dropWhile isSpace := by
    cases hp : p.data with
    | nil => exact absurd hp hne
    | cons c rest =>
      rw [← hp]
      exact infix_dropWhile_isSpace p.data s.data c rest hp (hns c (by rw [hp]; simp)) h
  have h2 : p.data.reverse <:+: (s.data.dropWhile isSpace).reverse := List.reverse_infix.2 h1
  have h3 : p.data.reverse <:+: (s.data.dropWhile isSpace).reverse.dropWhile isSpace := by
    cases hp : p.data.reverse with
    | nil => exact absurd (List.reverse_eq_nil_iff.1 hp) hne
    | cons c rest =>
      rw [← hp]
      exact infix_dropWhile_isSpace p.data.reverse _ c rest hp
        (hns c (List.mem_reverse.1 (by rw [hp]; simp))) h2
  have h4 := List.reverse_infix.2 h3
  simpa using h4

/-- A command in which `pattern` occurs once lower-cased is read-only, when `pattern`
is one of the read-only patterns. -/
theorem isReadOnlyCommand_of_pattern (T : GoRuntime) (command pattern : String)
    (hmem : pattern ∈ readOnlyPatterns) (hne : pattern.data ≠ [])
    (hns : ∀ c ∈ pattern.data, isSpace c = false)
    (h : pattern.data <:+: (toLower T command).data) :
    isReadOnlyCommand T command = true :=
  (isReadOnlyCommand_eq_true_iff T command).2
    (Or.inr ⟨pattern, hmem, infix_trimSpace pattern (toLower T command) hne hns h⟩)

theorem toLower_data_append3 (T : GoRuntime) (a m b : String) :
    (toLower T (a ++ m ++ b)).data =
      a.data.map (toLowerRune T) ++
        (m.data.map (toLowerRune T) ++ b.data.map (toLowerRune T)) := by
  simp [toLower, String.data_append]

/-- C19: whatever stands before and after it, a command that contains `-h`, `-v`,
`-H` or `-V` is classified read-only; so under the default flags (`requireConfirm`
and `autoApproveReads` both set) the handler runs `rm -rf ./my-home` and `rm -v file`
at once: all it does is start the subprocess, without prompt. -/
theorem isReadOnlyCommand_dash_h_v {W : Type} (T : GoRuntime) (a b : String)
    (sh : Shell W) (w : W) :
    isReadOnlyCommand T (a ++ "-h" ++ b) = true ∧
    isReadOnlyCommand T (a ++ "-v" ++ b) = true ∧
    isReadOnlyCommand T (a ++ "-H" ++ b) = true ∧
    isReadOnlyCommand T (a ++ "-V" ++ b) = true ∧
    (run_command T { requireConfirm := true, autoApproveReads := true } sh
        [("command", JVal.str "rm -rf ./my-home")] w).events =
      [CmdEvent.spawn "rm -rf ./my-home" "." (30 * second)] ∧
    (run_command T { requireConfirm := true, autoApproveReads := true } sh
        [("command", JVal.str "rm -v file")] w).events =
      [CmdEvent.spawn "rm -v file" "." (30 * second)] := by
  have hh : ∀ m : String, m.data.map (toLowerRune T) = ['-', 'h'] →
      isReadOnlyCommand T (a ++ m ++ b) = true := by
    intro m hm
    apply isReadOnlyCommand_of_pattern T _ "-h" (by decide) (by decide) (by decide)
    rw [toLower_data_append3, hm]
    exact ⟨_, _, by simp; rfl⟩
  have hv : ∀ m : String, m.data.map (toLowerRune T) = ['-', 'v'] →
      isReadOnlyCommand T (a ++ m ++ b) = true := by
    intro m hm
    apply isReadOnlyCommand_of_pattern T _ "-v" (by decide) (by decide) (by decide)
    rw [toLower_data_append3, hm]
    exact ⟨_, _, by simp; rfl⟩
  have hrun : ∀ command : String, command ≠ "" → isReadOnlyCommand T command = true →
      (run_command T { requireConfirm := true, autoApproveReads := true } sh
          [("command", JVal.str command)] w).events =
        [CmdEvent.spawn command "." (30 * second)] := by
    intro command hne hro
    have hnc : ¬ needsConfirm T { requireConfirm := true, autoApproveReads := true } command =
        true := by simp [needsConfirm, hro]
    rw [run_command_valid T { requireConfirm := true, autoApproveReads := true } sh
      [("command", JVal.str command)] w command rfl hne, if_neg hnc,
      ← timeoutDuration_thirty]
    exact runSubprocess_events sh command _ _ w
  exact ⟨hh "-h" rfl, hv "-v" rfl, hh "-H" rfl, hv "-V" rfl,
    hrun "rm -rf ./my-home" (by decide)
      ((isReadOnlyCommand_ascii T goRuntime "rm -rf ./my-home" (by decide)).trans (by decide)),
    hrun "rm -v file" (by decide)
      ((isReadOnlyCommand_ascii T goRuntime "rm -v file" (by decide)).trans (by decide))⟩

/-! ## The runtime parameter at work -/

/-- With the case table entries for the Kelvin sign and the dotted capital I, commands
written with these letters are classified as the commands they lower-case to. -/
theorem isReadOnlyCommand_case_table :
    isReadOnlyCommand goRuntime "doc\u212Aer ps" = true ∧
      isReadOnlyCommand goRuntime "G\u0130T STATUS" = true ∧
      isReadOnlyCommand goRuntime "\u212AUBECTL GET" = true ∧
      toLower goRuntime "doc\u212Aer ps" = "docker ps" := by
  refine ⟨?_, ?_, ?_, ?_⟩ <;> decide

/-- The timeout in seconds is a 64-bit integer. -/
theorem timeoutSecondsOf_range (T : GoRuntime) (args : Args) :
    minInt64 ≤ timeoutSecondsOf T args ∧ timeoutSecondsOf T args ≤ maxInt64 := by
  unfold timeoutSecondsOf
  cases argFloat args "timeout_seconds" with
  | none =>
    show minInt64 ≤ (30 : Int) ∧ (30 : Int) ≤ maxInt64
    decide
  | some ts =>
    show minInt64 ≤ truncToInt T ts ∧ truncToInt T ts ≤ maxInt64
    unfold truncToInt
    by_cases h : minInt64 ≤ Int.tdiv ts.num ts.den ∧ Int.tdiv ts.num ts.den ≤ maxInt64
    · rw [if_pos h]
      exact h
    · rw [if_neg h]
      exact T.intOfOutOfRange_range ts

/-- The timeout given to the context is a 64-bit integer; a number of seconds whose
product with `time.Second` does not fit wraps around, so that the least 64-bit
integer gives the timeout 0. -/
theorem timeoutDuration_range (n : Int) :
    (minInt64 ≤ timeoutDuration n ∧ timeoutDuration n ≤ maxInt64) ∧
      timeoutDuration minInt64 = 0 ∧ timeoutDuration 9223372037 = -9223372036709551616 := by
  refine ⟨?_, by decide, by decide⟩
  unfold timeoutDuration int64Wrap minInt64 maxInt64
  have h1 := Int.emod_nonneg (n * second + 9223372036854775808)
    (by decide : (18446744073709551616 : Int) ≠ 0)
  have h2 := Int.emod_lt_of_pos (n * second + 9223372036854775808)
    (by decide : (0 : Int) < 18446744073709551616)
  omega

end Unplugged
